import Mathlib

/-!
Verification development for the Daily Time Tracking MCP server
(request/response normalization and reporting layer).

The definitions below are shallow embeddings of the TypeScript source:
* `src/daily-api/client.ts` — `makeRequest` status mapping, `formatDuration`,
  `isValidISODate`, `getTodayISO`, `getDaysAgoISO`;
* `src/tools/daily-tools.ts` — the tool handlers: activity grouping/counts,
  summary sorting and percentages, timesheet formatting, quick-period date
  resolution, the `ALLOWED_USERNAMES` gate, and input validation.

JavaScript machine behaviour is modelled as follows: `Date` values are civil
dates `(year, month, day)` in the proleptic Gregorian calendar (the runtime the
code deploys to operates in UTC, so local-time and UTC calendars coincide);
integer-valued JS numbers are `Nat` (exact as doubles below `2^53`); the
percentage pipeline `((d / T) * 100).toFixed(1)` is modelled exactly: both
arithmetic steps round to the nearest IEEE-754 binary64 value (ties to even),
and `toFixed(1)` picks the integer count of tenths closest to that double
(larger on ties), per ECMA-262; `Array.prototype.sort` is a stable sort by
the comparator (per ES2019).
-/

namespace DailyMcp

/-! ## API client result shape (`src/daily-api/client.ts`) -/

/-- The `DailyApiResponse<T>` interface from `types.ts`: optional fields of the
TS object literal become `Option`s. -/
structure DailyApiResponse (T : Type) where
  success : Bool
  data : Option T
  error : Option String
  statusCode : Option Nat
  deriving Repr, DecidableEq

/-- The possible outcomes of the single `fetch` performed by `makeRequest`:
either an HTTP response arrived (with a status code, and for its body the
result of `response.json()` — `Except.error` when the body is not JSON), or
the fetch itself threw with some message. -/
inductive HttpOutcome (T : Type) where
  | response (status : Nat) (json : Except String T)
  | networkError (message : String)
  deriving Repr

/-- `DailyTimeTrackingClient.makeRequest`, `client.ts` lines 44–105: the
`if`/`else if` chain on `response.status`, with the surrounding `try`/`catch`
turning any thrown error (fetch failure, or `response.json()` rejection in the
200 branch) into the `Network error:` result with no status code. -/
def makeRequest {T : Type} : HttpOutcome T → DailyApiResponse T
  | .response status json =>
    if status = 200 then
      match json with
      | .ok d => { success := true, data := some d, error := none, statusCode := some 200 }
      | .error e =>
        { success := false, data := none, error := some ("Network error: " ++ e),
          statusCode := none }
    else if status = 204 then
      { success := true, data := none, error := none, statusCode := some 204 }
    else if status = 400 then
      { success := false, data := none,
        error := some "Bad Request: The request was invalid or missing required data",
        statusCode := some 400 }
    else if status = 401 then
      { success := false, data := none,
        error := some "Unauthorized: Invalid or missing API key",
        statusCode := some 401 }
    else if status = 500 then
      { success := false, data := none,
        error := some "Internal Server Error: The server encountered an unexpected error",
        statusCode := some 500 }
    else
      { success := false, data := none,
        error := some ("Unexpected response status: " ++ toString status),
        statusCode := some status }
  | .networkError message =>
    { success := false, data := none, error := some ("Network error: " ++ message),
      statusCode := none }

/-! ## Access policy (`src/tools/daily-tools.ts` lines 14–18, 253–290) -/

/-- `ALLOWED_USERNAMES`, `daily-tools.ts` lines 14–18. -/
def ALLOWED_USERNAMES : List String := ["coleam00"]

/-- The caller identity supplied by the OAuth collaborator (`Props` in
`types.ts`): only the fields the tool layer reads. -/
structure Props where
  login : String
  name : String
  email : String
  deriving Repr, DecidableEq

/-- The names of the tools `registerDailyTools` registers for a given caller,
in registration order: four unconditional tools, then `createDailyActivities`
only when `ALLOWED_USERNAMES.has(props.login)`, then the quick-summary tool. -/
def registeredTools (props : Props) : List String :=
  ["getDailyUser", "getDailyActivities", "getDailySummary", "getDailyTimesheet"]
    ++ (if ALLOWED_USERNAMES.contains props.login then ["createDailyActivities"] else [])
    ++ ["getDailyQuickSummary"]

/-! ## Group fallback (`activity.group || 'Ungrouped'`) -/

/-- The JS expression `g || 'Ungrouped'` where `g : string | null | undefined`:
`null`/`undefined` and the empty string are falsy, so all of them fall back to
the literal `'Ungrouped'`. Used at `daily-tools.ts` lines 90, 153, 214, 366. -/
def jsGroup : Option String → String
  | none => "Ungrouped"
  | some g => if g = "" then "Ungrouped" else g

/-! ## Decimal rendering (JS `ToString` on non-negative integers) -/

/-- The decimal digit characters. -/
def digitChar : Nat → Char
  | 0 => '0' | 1 => '1' | 2 => '2' | 3 => '3' | 4 => '4'
  | 5 => '5' | 6 => '6' | 7 => '7' | 8 => '8' | _ => '9'

/-- Fuel-driven digit extraction (`fuel ≥ n` always suffices). -/
def natDecCharsAux : Nat → Nat → List Char
  | 0, n => [digitChar n]
  | fuel + 1, n =>
    if n < 10 then [digitChar n]
    else natDecCharsAux fuel (n / 10) ++ [digitChar (n % 10)]

/-- JS number-to-string on a non-negative integer: its decimal digits. -/
def natDecChars (n : Nat) : List Char := natDecCharsAux n n

def natDecStr (n : Nat) : String := String.mk (natDecChars n)

/-- Numeric value of a digit character. -/
def digitVal (c : Char) : Nat := c.toNat - 48

/-- Value of a digit string, most significant first. -/
def decValue (ds : List Char) : Nat := ds.foldl (fun a c => 10 * a + digitVal c) 0

/-! ## `formatDuration` (`client.ts` lines 170–182) and a component parser -/

/-- The characters `formatDuration` emits: `hours = Math.floor(seconds/3600)`,
`minutes = Math.floor((seconds % 3600) / 60)`, `remainingSeconds = seconds % 60`,
then the three-way branch on `hours > 0` / `minutes > 0`. -/
def formatDurationChars (seconds : Nat) : List Char :=
  let hours := seconds / 3600
  let minutes := (seconds % 3600) / 60
  let remainingSeconds := seconds % 60
  if hours > 0 then
    natDecChars hours ++ 'h' :: ' ' :: (natDecChars minutes ++ 'm' :: ' ' ::
      (natDecChars remainingSeconds ++ ['s']))
  else if minutes > 0 then
    natDecChars minutes ++ 'm' :: ' ' :: (natDecChars remainingSeconds ++ ['s'])
  else
    natDecChars remainingSeconds ++ ['s']

/-- `formatDuration`, `client.ts` lines 170–182. -/
def formatDuration (seconds : Nat) : String := String.mk (formatDurationChars seconds)

/-- Read a maximal nonempty digit prefix as a number; also return the rest. -/
def readNat (cs : List Char) : Option (Nat × List Char) :=
  let ds := cs.takeWhile Char.isDigit
  if ds.isEmpty then none else some (decValue ds, cs.dropWhile Char.isDigit)

/-- Parse the final `"{s}s"` component and add it to the seconds accumulated
from the components already consumed. -/
def parseS (acc : Nat) (r : List Char) : Option Nat :=
  match readNat r with
  | some (c, ['s']) => some (acc + c)
  | _ => none

/-- Parse `"{m}m {s}s"` after the hours component `a`. -/
def parseHMS (a : Nat) (r2 : List Char) : Option Nat :=
  match readNat r2 with
  | some (b, 'm' :: ' ' :: r3) => parseS (a * 3600 + b * 60) r3
  | _ => none

/-- Dispatch on the unit of the first numeric component `a`. -/
def parseAfterFirst : Nat → List Char → Option Nat
  | a, ['s'] => some a
  | a, 'm' :: ' ' :: r2 => parseS (a * 60) r2
  | a, 'h' :: ' ' :: r2 => parseHMS a r2
  | _, _ => none

/-- Component-wise parser for the three duration shapes
`"{h}h {m}m {s}s"`, `"{m}m {s}s"`, `"{s}s"`; recombines as
`h*3600 + m*60 + s`. -/
def parseDurationChars (cs : List Char) : Option Nat :=
  match readNat cs with
  | some (a, r) => parseAfterFirst a r
  | none => none

def parseDuration (s : String) : Option Nat := parseDurationChars s.data

/-! ## ISO date validation (`client.ts` lines 187–195) and the civil calendar -/

/-- The regex `^\d{4}-\d{2}-\d{2}$` from `isValidISODate`, as a character test. -/
def matchesISOPattern (s : String) : Bool :=
  match s.data with
  | [y1, y2, y3, y4, s1, m1, m2, s2, d1, d2] =>
    y1.isDigit && y2.isDigit && y3.isDigit && y4.isDigit && (s1 == '-') &&
    m1.isDigit && m2.isDigit && (s2 == '-') && d1.isDigit && d2.isDigit
  | _ => false

/-- Gregorian leap-year rule (what JS `Date` uses, proleptically). -/
def isLeapYear (y : Nat) : Bool :=
  (y % 4 == 0 && y % 100 != 0) || y % 400 == 0

/-- Length of month `m` (1–12) of year `y` in the proleptic Gregorian calendar. -/
def daysInMonth (y m : Nat) : Nat :=
  match m with
  | 1 => 31 | 2 => if isLeapYear y then 29 else 28 | 3 => 31
  | 4 => 30 | 5 => 31 | 6 => 30 | 7 => 31 | 8 => 31
  | 9 => 30 | 10 => 31 | 11 => 30 | 12 => 31
  | _ => 0

/-- Modelled from the JS runtime: for a string already matching
`\d{4}-\d{2}-\d{2}`, `new Date(s + 'T00:00:00.000Z').getTime()` is not NaN
exactly when the month is 01–12 and the day is 01 up to that month's length
(the engine rejects out-of-range components of ISO date strings). -/
def isRealDate (y m d : Nat) : Bool :=
  decide (1 ≤ m ∧ m ≤ 12 ∧ 1 ≤ d ∧ d ≤ daysInMonth y m)

/-- The `(year, month, day)` read back from a 10-character ISO string. -/
def parseISOComponents (s : String) : Nat × Nat × Nat :=
  match s.data with
  | [y1, y2, y3, y4, _, m1, m2, _, d1, d2] =>
    (1000 * digitVal y1 + 100 * digitVal y2 + 10 * digitVal y3 + digitVal y4,
     10 * digitVal m1 + digitVal m2,
     10 * digitVal d1 + digitVal d2)
  | _ => (0, 0, 0)

/-- `isValidISODate`, `client.ts` lines 187–195: the regex test, then validity
of `new Date(dateString + 'T00:00:00.000Z')`. -/
def isValidISODate (dateString : String) : Bool :=
  if matchesISOPattern dateString then
    match parseISOComponents dateString with
    | (y, m, d) => isRealDate y m d
  else false

/-- A JS `Date`, viewed as a civil calendar date (the deployment runtime is
UTC, so the local calendar the code manipulates via `getDate`/`setDate`/
`getDay`/`getMonth`/`getFullYear` is the UTC calendar of `toISOString`). -/
structure CivilDate where
  year : Nat
  month : Nat
  day : Nat
  deriving Repr, DecidableEq

/-- The date denotes a real calendar day (and so a real JS time value). -/
def ValidDate (c : CivilDate) : Prop :=
  1 ≤ c.month ∧ c.month ≤ 12 ∧ 1 ≤ c.day ∧ c.day ≤ daysInMonth c.year c.month

/-- `toISOString().split('T')[0]` for years 0–9999: `YYYY-MM-DD`, zero padded. -/
def isoOfDate (c : CivilDate) : String :=
  String.mk [digitChar (c.year / 1000), digitChar (c.year / 100 % 10),
             digitChar (c.year / 10 % 10), digitChar (c.year % 10), '-',
             digitChar (c.month / 10), digitChar (c.month % 10), '-',
             digitChar (c.day / 10), digitChar (c.day % 10)]

/-! ## Lemmas: decimal digits -/

theorem natDecCharsAux_congr : ∀ f g n, n ≤ f → n ≤ g →
    natDecCharsAux f n = natDecCharsAux g n := by
  intro f
  induction f with
  | zero =>
    intro g n hf _hg
    have hn : n = 0 := by omega
    subst hn
    cases g with
    | zero => rfl
    | succ g' => simp [natDecCharsAux]
  | succ f' ih =>
    intro g n hf hg
    cases g with
    | zero =>
      have hn : n = 0 := by omega
      subst hn
      simp [natDecCharsAux]
    | succ g' =>
      simp only [natDecCharsAux]
      by_cases h : n < 10
      · simp [h]
      · simp only [h, if_neg, ite_false]
        have hdiv : n / 10 < n := Nat.div_lt_self (by omega) (by omega)
        rw [ih g' (n / 10) (by omega) (by omega)]

theorem natDecChars_eq (n : Nat) :
    natDecChars n =
      if n < 10 then [digitChar n] else natDecChars (n / 10) ++ [digitChar (n % 10)] := by
  unfold natDecChars
  cases n with
  | zero => simp [natDecCharsAux]
  | succ m =>
    simp only [natDecCharsAux]
    by_cases h : m + 1 < 10
    · simp [h]
    · simp only [h, ite_false]
      have hdiv : (m + 1) / 10 < m + 1 := Nat.div_lt_self (by omega) (by omega)
      rw [natDecCharsAux_congr m ((m + 1) / 10) ((m + 1) / 10) (by omega) le_rfl]

theorem digitChar_isDigit {n : Nat} (h : n < 10) : (digitChar n).isDigit = true := by
  interval_cases n <;> decide

theorem digitVal_digitChar {n : Nat} (h : n < 10) : digitVal (digitChar n) = n := by
  interval_cases n <;> decide

theorem natDecChars_digits (n : Nat) : ∀ c ∈ natDecChars n, c.isDigit = true := by
  induction n using Nat.strong_induction_on with
  | _ n ih =>
    rw [natDecChars_eq]
    by_cases h : n < 10
    · simp only [h, ite_true, List.mem_singleton]
      intro c hc
      subst hc
      exact digitChar_isDigit h
    · simp only [h, ite_false]
      intro c hc
      rcases List.mem_append.mp hc with h1 | h2
      · exact ih (n / 10) (Nat.div_lt_self (by omega) (by omega)) c h1
      · rw [List.mem_singleton.mp h2]
        exact digitChar_isDigit (Nat.mod_lt _ (by omega))

theorem natDecChars_ne_nil (n : Nat) : natDecChars n ≠ [] := by
  rw [natDecChars_eq]
  by_cases h : n < 10 <;> simp [h]

theorem decValue_append (l : List Char) (c : Char) :
    decValue (l ++ [c]) = 10 * decValue l + digitVal c := by
  unfold decValue
  rw [List.foldl_append]
  rfl

theorem decValue_natDecChars (n : Nat) : decValue (natDecChars n) = n := by
  induction n using Nat.strong_induction_on with
  | _ n ih =>
    rw [natDecChars_eq]
    by_cases h : n < 10
    · simp only [h, ite_true]
      show 10 * 0 + digitVal (digitChar n) = n
      rw [digitVal_digitChar h]
      omega
    · simp only [h, ite_false]
      rw [decValue_append, ih (n / 10) (Nat.div_lt_self (by omega) (by omega)),
        digitVal_digitChar (Nat.mod_lt _ (by omega))]
      omega

/-! ## Lemmas: `readNat` against rendered digits -/

theorem takeWhile_all_append (p : Char → Bool) (l : List Char)
    (hl : ∀ x ∈ l, p x = true) (c : Char) (hc : p c = false) (r : List Char) :
    (l ++ c :: r).takeWhile p = l ∧ (l ++ c :: r).dropWhile p = c :: r := by
  induction l with
  | nil => simp [List.takeWhile, List.dropWhile, hc]
  | cons a as iha =>
    have ha : p a = true := hl a (List.mem_cons_self a as)
    have ih := iha (fun x hx => hl x (List.mem_cons_of_mem a hx))
    simp only [List.cons_append, List.takeWhile, List.dropWhile, ha, List.append_eq]
    exact ⟨by rw [ih.1], ih.2⟩

theorem readNat_append (l : List Char) (hne : l ≠ [])
    (hd : ∀ x ∈ l, x.isDigit = true) (c : Char) (hc : c.isDigit = false)
    (r : List Char) : readNat (l ++ c :: r) = some (decValue l, c :: r) := by
  obtain ⟨ht, hdw⟩ := takeWhile_all_append Char.isDigit l hd c hc r
  unfold readNat
  rw [ht, hdw]
  simp [List.isEmpty_iff, hne]

/-! ## Lemmas: duration formatting round-trip -/

theorem parseDurationChars_format (d : Nat) :
    parseDurationChars (formatDurationChars d) = some d := by
  have hh : ('h' : Char).isDigit = false := by decide
  have hm : ('m' : Char).isDigit = false := by decide
  unfold formatDurationChars
  simp only []
  by_cases h1 : 0 < d / 3600
  · rw [if_pos h1]
    unfold parseDurationChars
    rw [readNat_append _ (natDecChars_ne_nil _) (natDecChars_digits _) _ hh _]
    show parseHMS (decValue (natDecChars (d / 3600))) _ = some d
    unfold parseHMS
    rw [readNat_append _ (natDecChars_ne_nil _) (natDecChars_digits _) _ hm _]
    show parseS _ _ = some d
    unfold parseS
    rw [readNat_append _ (natDecChars_ne_nil _) (natDecChars_digits _) _ (by decide) _]
    show some _ = some d
    simp only [decValue_natDecChars, Option.some.injEq]
    omega
  · rw [if_neg h1]
    by_cases h2 : 0 < d % 3600 / 60
    · rw [if_pos h2]
      unfold parseDurationChars
      rw [readNat_append _ (natDecChars_ne_nil _) (natDecChars_digits _) _ hm _]
      show parseS _ _ = some d
      unfold parseS
      rw [readNat_append _ (natDecChars_ne_nil _) (natDecChars_digits _) _ (by decide) _]
      show some _ = some d
      simp only [decValue_natDecChars, Option.some.injEq]
      omega
    · rw [if_neg h2]
      unfold parseDurationChars
      rw [readNat_append _ (natDecChars_ne_nil _) (natDecChars_digits _) _ (by decide) _]
      show some _ = some d
      simp only [decValue_natDecChars, Option.some.injEq]
      omega

theorem not_mem_natDecChars_of_not_digit {c : Char} (hc : c.isDigit = false) (n : Nat) :
    c ∉ natDecChars n := by
  intro hmem
  have := natDecChars_digits n c hmem
  rw [hc] at this
  cases this

theorem formatDurationChars_hour_mem (d : Nat) :
    'h' ∈ formatDurationChars d ↔ 3600 ≤ d := by
  have hnd : ('h' : Char).isDigit = false := by decide
  unfold formatDurationChars
  simp only []
  by_cases h1 : 0 < d / 3600
  · rw [if_pos h1]
    constructor
    · intro _
      omega
    · intro _
      exact List.mem_append.mpr (Or.inr (List.mem_cons_self _ _))
  · rw [if_neg h1]
    by_cases h2 : 0 < d % 3600 / 60
    · rw [if_pos h2]
      constructor
      · intro hmem
        simp only [List.mem_append, List.mem_cons, List.mem_singleton] at hmem
        rcases hmem with hm1 | hm2 | hm3 | hm4 | hm5
        · exact absurd hm1 (not_mem_natDecChars_of_not_digit hnd _)
        · exact absurd hm2 (by decide)
        · exact absurd hm3 (by decide)
        · exact absurd hm4 (not_mem_natDecChars_of_not_digit hnd _)
        · exact absurd hm5 (by decide)
      · intro h
        omega
    · rw [if_neg h2]
      constructor
      · intro hmem
        simp only [List.mem_append, List.mem_singleton] at hmem
        rcases hmem with hm1 | hm2
        · exact absurd hm1 (not_mem_natDecChars_of_not_digit hnd _)
        · exact absurd hm2 (by decide)
      · intro h
        omega

theorem formatDurationChars_minute_mem (d : Nat) :
    'm' ∈ formatDurationChars d ↔ 60 ≤ d := by
  have hnd : ('m' : Char).isDigit = false := by decide
  unfold formatDurationChars
  simp only []
  by_cases h1 : 0 < d / 3600
  · rw [if_pos h1]
    constructor
    · intro _
      omega
    · intro _
      refine List.mem_append.mpr (Or.inr ?_)
      exact List.mem_cons_of_mem _ (List.mem_cons_of_mem _
        (List.mem_append.mpr (Or.inr (List.mem_cons_self _ _))))
  · rw [if_neg h1]
    by_cases h2 : 0 < d % 3600 / 60
    · rw [if_pos h2]
      constructor
      · intro _
        omega
      · intro _
        exact List.mem_append.mpr (Or.inr (List.mem_cons_self _ _))
    · rw [if_neg h2]
      constructor
      · intro hmem
        simp only [List.mem_append, List.mem_singleton] at hmem
        rcases hmem with hm1 | hm2
        · exact absurd hm1 (not_mem_natDecChars_of_not_digit hnd _)
        · exact absurd hm2 (by decide)
      · intro h
        omega

/-! ## Lemmas: ISO rendering parses back -/

theorem isValidISODate_isoOfDate (y m d : Nat) (hy : y ≤ 9999) (hm : m ≤ 99)
    (hd : d ≤ 99) : isValidISODate (isoOfDate ⟨y, m, d⟩) = isRealDate y m d := by
  have h1 : y / 1000 < 10 := by omega
  have h2 : y / 100 % 10 < 10 := by omega
  have h3 : y / 10 % 10 < 10 := by omega
  have h4 : y % 10 < 10 := by omega
  have h5 : m / 10 < 10 := by omega
  have h6 : m % 10 < 10 := by omega
  have h7 : d / 10 < 10 := by omega
  have h8 : d % 10 < 10 := by omega
  have hpat : matchesISOPattern (isoOfDate ⟨y, m, d⟩) = true := by
    unfold isoOfDate matchesISOPattern
    simp only [digitChar_isDigit h1, digitChar_isDigit h2, digitChar_isDigit h3,
      digitChar_isDigit h4, digitChar_isDigit h5, digitChar_isDigit h6,
      digitChar_isDigit h7, digitChar_isDigit h8, Bool.and_true, Bool.true_and]
    decide
  unfold isValidISODate
  rw [hpat]
  show (match parseISOComponents (isoOfDate ⟨y, m, d⟩) with
        | (y', m', d') => isRealDate y' m' d') = isRealDate y m d
  unfold isoOfDate parseISOComponents
  simp only [digitVal_digitChar h1, digitVal_digitChar h2, digitVal_digitChar h3,
    digitVal_digitChar h4, digitVal_digitChar h5, digitVal_digitChar h6,
    digitVal_digitChar h7, digitVal_digitChar h8]
  have ey : 1000 * (y / 1000) + 100 * (y / 100 % 10) + 10 * (y / 10 % 10) + y % 10 = y := by
    omega
  have em : 10 * (m / 10) + m % 10 = m := by omega
  have ed : 10 * (d / 10) + d % 10 = d := by omega
  rw [ey, em, ed]

/-! ## Claim theorems: client layer -/

/-- C5: `isValidISODate` accepts exactly the `YYYY-MM-DD` strings denoting a
real calendar date: rendering any `(y, m, d)` with up-to-4/2/2 digits and
validating agrees with the real-calendar-date test, and the malformed or
calendar-impossible examples are rejected while real dates are accepted. -/
theorem isValidISODate_spec :
    (∀ y m d : Nat, y ≤ 9999 → m ≤ 99 → d ≤ 99 →
      isValidISODate (isoOfDate ⟨y, m, d⟩) = isRealDate y m d)
    ∧ isValidISODate "2023-02-30" = false
    ∧ isValidISODate "2024-02-30" = false
    ∧ isValidISODate "2024-02-29" = true
    ∧ isValidISODate "2023-01-15" = true
    ∧ isValidISODate "2023-13-01" = false
    ∧ isValidISODate "23-1-1" = false
    ∧ isValidISODate "2023/01/01" = false
    ∧ isValidISODate "" = false :=
  ⟨isValidISODate_isoOfDate, by decide, by decide, by decide, by decide, by decide,
   by decide, by decide, by decide⟩

theorem isValidISODate_spec_witness :
    ((2023 : Nat) ≤ 9999 ∧ (2 : Nat) ≤ 99 ∧ (30 : Nat) ≤ 99)
    ∧ isValidISODate (isoOfDate ⟨2023, 2, 30⟩) = isRealDate 2023 2 30 :=
  ⟨⟨by decide, by decide, by decide⟩,
   isValidISODate_spec.1 2023 2 30 (by decide) (by decide) (by decide)⟩

/-- C6: `formatDuration` renders `h`/`m`/`s` components per the three-way
branch, the rendering parses back to exactly the input seconds
(`h*3600 + m*60 + s = d`), and the hour (resp. minute) component is present
exactly when `3600 ≤ d` (resp. `60 ≤ d`). -/
theorem formatDuration_roundtrip_spec (d : Nat) :
    parseDuration (formatDuration d) = some d
    ∧ (3600 ≤ d → formatDurationChars d =
        natDecChars (d / 3600) ++ 'h' :: ' ' :: (natDecChars (d % 3600 / 60) ++ 'm' :: ' ' ::
          (natDecChars (d % 60) ++ ['s'])))
    ∧ (60 ≤ d → d < 3600 → formatDurationChars d =
        natDecChars (d / 60) ++ 'm' :: ' ' :: (natDecChars (d % 60) ++ ['s']))
    ∧ (d < 60 → formatDurationChars d = natDecChars d ++ ['s'])
    ∧ ('h' ∈ formatDurationChars d ↔ 3600 ≤ d)
    ∧ ('m' ∈ formatDurationChars d ↔ 60 ≤ d) := by
  refine ⟨parseDurationChars_format d, ?_, ?_, ?_, formatDurationChars_hour_mem d,
    formatDurationChars_minute_mem d⟩
  · intro h
    unfold formatDurationChars
    simp only []
    rw [if_pos (show 0 < d / 3600 by omega)]
  · intro h1 h2
    unfold formatDurationChars
    simp only []
    rw [if_neg (show ¬ 0 < d / 3600 by omega), if_pos (show 0 < d % 3600 / 60 by omega),
      Nat.mod_eq_of_lt h2]
  · intro h
    unfold formatDurationChars
    simp only []
    rw [if_neg (show ¬ 0 < d / 3600 by omega), if_neg (show ¬ 0 < d % 3600 / 60 by omega),
      Nat.mod_eq_of_lt (show d < 60 from h)]

theorem formatDuration_roundtrip_witness :
    ((3600 : Nat) ≤ 3725 ∧ (60 : Nat) ≤ 65 ∧ (65 : Nat) < 3600 ∧ (59 : Nat) < 60)
    ∧ parseDuration (formatDuration 3725) = some 3725
    ∧ formatDurationChars 3725 =
        natDecChars (3725 / 3600) ++ 'h' :: ' ' :: (natDecChars (3725 % 3600 / 60) ++ 'm' :: ' ' ::
          (natDecChars (3725 % 60) ++ ['s']))
    ∧ formatDurationChars 65 = natDecChars (65 / 60) ++ 'm' :: ' ' :: (natDecChars (65 % 60) ++ ['s'])
    ∧ formatDurationChars 59 = natDecChars 59 ++ ['s'] :=
  ⟨⟨by decide, by decide, by decide, by decide⟩,
   (formatDuration_roundtrip_spec 3725).1,
   (formatDuration_roundtrip_spec 3725).2.1 (by decide),
   (formatDuration_roundtrip_spec 65).2.2.1 (by decide) (by decide),
   (formatDuration_roundtrip_spec 59).2.2.2.1 (by decide)⟩

/-- C1 (amended): `makeRequest` maps each HTTP outcome to exactly one result —
200 to success with the parsed payload, 204 to success with no payload,
400/401/500 to the three fixed error messages (capitalized as in the code:
"The request…", "Invalid or missing…", "The server…"), any other status to
`Unexpected response status: {code}`, and a transport exception to
`Network error: {message}` with no statusCode. -/
theorem makeRequest_status_mapping {T : Type} :
    (∀ d : T, makeRequest (HttpOutcome.response 200 (Except.ok d)) =
      ⟨true, some d, none, some 200⟩)
    ∧ (∀ j, makeRequest (HttpOutcome.response 204 j : HttpOutcome T) =
      ⟨true, none, none, some 204⟩)
    ∧ (∀ j, makeRequest (HttpOutcome.response 400 j : HttpOutcome T) =
      ⟨false, none, some "Bad Request: The request was invalid or missing required data",
        some 400⟩)
    ∧ (∀ j, makeRequest (HttpOutcome.response 401 j : HttpOutcome T) =
      ⟨false, none, some "Unauthorized: Invalid or missing API key", some 401⟩)
    ∧ (∀ j, makeRequest (HttpOutcome.response 500 j : HttpOutcome T) =
      ⟨false, none,
        some "Internal Server Error: The server encountered an unexpected error", some 500⟩)
    ∧ (∀ code j, code ≠ 200 → code ≠ 204 → code ≠ 400 → code ≠ 401 → code ≠ 500 →
      makeRequest (HttpOutcome.response code j : HttpOutcome T) =
        ⟨false, none, some ("Unexpected response status: " ++ toString code), some code⟩)
    ∧ (∀ msg, makeRequest (HttpOutcome.networkError msg : HttpOutcome T) =
      ⟨false, none, some ("Network error: " ++ msg), none⟩) := by
  refine ⟨fun d => rfl, fun j => rfl, fun j => rfl, fun j => rfl, fun j => rfl,
    ?_, fun msg => rfl⟩
  intro code j h200 h204 h400 h401 h500
  simp only [makeRequest]
  rw [if_neg h200, if_neg h204, if_neg h400, if_neg h401, if_neg h500]

theorem makeRequest_status_mapping_witness :
    ((503 : Nat) ≠ 200 ∧ (503 : Nat) ≠ 204 ∧ (503 : Nat) ≠ 400 ∧ (503 : Nat) ≠ 401 ∧
      (503 : Nat) ≠ 500)
    ∧ makeRequest (HttpOutcome.response 503 (Except.ok 7) : HttpOutcome Nat) =
      ⟨false, none, some ("Unexpected response status: " ++ toString (503 : Nat)), some 503⟩ :=
  ⟨⟨by decide, by decide, by decide, by decide, by decide⟩,
   (@makeRequest_status_mapping Nat).2.2.2.2.2.1 503 (Except.ok 7)
     (by decide) (by decide) (by decide) (by decide) (by decide)⟩

/-- C1 counterexample to the claim as stated: the code's 401 message is
`Unauthorized: Invalid or missing API key` (capital I), not the claimed
`Unauthorized: invalid or missing API key`. -/
theorem makeRequest_message_casing_counterexample :
    (makeRequest (HttpOutcome.response 401 (Except.ok 0)) : DailyApiResponse Nat).error =
      some "Unauthorized: Invalid or missing API key"
    ∧ (makeRequest (HttpOutcome.response 401 (Except.ok 0)) : DailyApiResponse Nat).error ≠
      some "Unauthorized: invalid or missing API key" := by
  constructor
  · rfl
  · decide

/-- C8: `createDailyActivities` is registered exactly when the caller's login
is in `ALLOWED_USERNAMES` (exact, case-sensitive string equality with the one
member `coleam00`), while the five other tools are registered for every
caller; `Coleam00` (different case) is not allowed, `coleam00` is. -/
theorem createTool_allowlist_gate (props : Props) :
    ((registeredTools props).contains "createDailyActivities" =
      ALLOWED_USERNAMES.contains props.login)
    ∧ (ALLOWED_USERNAMES.contains props.login = (props.login == "coleam00"))
    ∧ ((["getDailyUser", "getDailyActivities", "getDailySummary", "getDailyTimesheet",
        "getDailyQuickSummary"].all fun t => (registeredTools props).contains t) = true)
    ∧ (registeredTools ⟨"Coleam00", "n", "e"⟩).contains "createDailyActivities" = false
    ∧ (registeredTools ⟨"coleam00", "n", "e"⟩).contains "createDailyActivities" = true := by
  have h2 : ALLOWED_USERNAMES.contains props.login = (props.login == "coleam00") := by
    cases h : props.login == "coleam00" <;>
      simp [ALLOWED_USERNAMES, List.contains, List.elem, h]
  cases h : ALLOWED_USERNAMES.contains props.login with
  | false =>
    refine ⟨?_, by rw [← h]; exact h2, ?_, by decide, by decide⟩
    · simp only [registeredTools]
      rw [h]
      decide
    · simp only [registeredTools]
      rw [h]
      decide
  | true =>
    refine ⟨?_, by rw [← h]; exact h2, ?_, by decide, by decide⟩
    · simp only [registeredTools]
      rw [h]
      decide
    · simp only [registeredTools]
      rw [h]
      decide

/-! ## Reporting layer: range summary (`daily-tools.ts` lines 144–157) -/

/-- `DailySummaryActivity`: one upstream summary row (`activity`, optional
`group`, `duration` in seconds). -/
structure SummaryEntry where
  activity : String
  group : Option String
  duration : Nat
  deriving Repr, DecidableEq

/-- `summary.reduce((sum, item) => sum + item.duration, 0)`, line 145. -/
def totalDuration (entries : List SummaryEntry) : Nat :=
  entries.foldl (fun sum item => sum + item.duration) 0

/-- Stable insertion for descending duration order: `x` is placed after every
already-placed element whose duration is `≥ x.duration`. -/
def insertDesc (x : SummaryEntry) : List SummaryEntry → List SummaryEntry
  | [] => [x]
  | y :: ys => if y.duration < x.duration then x :: y :: ys else y :: insertDesc x ys

/-- `summary.sort((a, b) => b.duration - a.duration)`, line 148:
`Array.prototype.sort` is stable (ES2019), so the sort is modelled as a stable
insertion sort processing the upstream order left to right. -/
def sortDesc (entries : List SummaryEntry) : List SummaryEntry :=
  entries.foldl (fun acc x => insertDesc x acc) []

/-! ### Exact model of the IEEE-754 binary64 percentage pipeline

`((item.duration / totalDuration) * 100).toFixed(1)` evaluates in doubles:
the division and the multiplication each round their exact rational result to
the nearest binary64 value (ties to even), and `toFixed(1)` then picks the
integer number of tenths closest to the resulting double, the larger one on
ties (ECMA-262 Number.prototype.toFixed). The model below computes all of
this exactly with integer arithmetic; overflow and NaN/Infinity paths are
unreachable here (the handler guards `totalDuration > 0`, durations are at
most the total, and all values stay far below the binary64 range). -/

/-- Fuel-driven base-2 logarithm (`fuel ≥ n` suffices). -/
def log2fuel : Nat → Nat → Nat
  | 0, _ => 0
  | f + 1, n => if n < 2 then 0 else log2fuel f (n / 2) + 1

/-- `⌊log₂ n⌋` for `n ≥ 1`. -/
def nlog2 (n : Nat) : Nat := log2fuel n n

/-- Round `a/b` (for `b > 0`) to the nearest integer, ties to even. -/
def rneDiv (a b : ℕ) : ℕ :=
  let n := a / b
  let r := a % b
  if 2 * r < b then n else if b < 2 * r then n + 1 else if n % 2 = 0 then n else n + 1

/-- Decide `2^e ≤ a/b` (for `b > 0`). -/
def le2pow (e : ℤ) (a b : ℕ) : Bool :=
  if 0 ≤ e then 2 ^ e.toNat * b ≤ a else b ≤ 2 ^ (-e).toNat * a

/-- The `e : ℤ` with `2^e ≤ a/b < 2^(e+1)` (for `a, b > 0`). -/
def ilog2pair (a b : ℕ) : ℤ :=
  let e0 : ℤ := (nlog2 a : ℤ) - (nlog2 b : ℤ)
  if le2pow e0 a b then e0 else e0 - 1

/-- Round `(a/b) / 2^s` to the nearest integer, ties to even. -/
def roundAtScale (a b : ℕ) (s : ℤ) : ℕ :=
  if 0 ≤ s then rneDiv a (b * 2 ^ s.toNat)
  else rneDiv (a * 2 ^ (-s).toNat) b

/-- The binary64 value nearest `a/b` (ties to even), as a pair `(m, s)` with
value `m·2^s`: normal numbers use a 53-bit significand (scale `e − 52`),
values below `2⁻¹⁰²²` are subnormal (fixed scale `2⁻¹⁰⁷⁴`). -/
def flPair (a b : ℕ) : ℕ × ℤ :=
  if a = 0 ∨ b = 0 then (0, 0)
  else
    let s : ℤ := max (ilog2pair a b - 52) (-1074)
    (roundAtScale a b s, s)

/-- `m·2^s` as a quotient of naturals. -/
def mulPow2Pair (m : ℕ) (s : ℤ) : ℕ × ℕ :=
  if 0 ≤ s then (m * 2 ^ s.toNat, 1) else (m, 2 ^ (-s).toNat)

/-- The integer tenths-of-a-percent the program prints for duration `d` of
total `T`: `x1 = fl(d/T)`, `x2 = fl(100·x1)`, then `toFixed(1)` = the tenth
count nearest `x2`, larger on ties, i.e. `⌊10·x2 + 1/2⌋`. -/
def pctTenths (d T : ℕ) : ℕ :=
  let p1 := flPair d T
  let q1 := mulPow2Pair (100 * p1.1) p1.2
  let p2 := flPair q1.1 q1.2
  let q2 := mulPow2Pair p2.1 p2.2
  (20 * q2.1 + q2.2) / (2 * q2.2)

/-- Modelled from the spec's words for C3: `duration / totalDuration * 100`
rounded to one decimal exactly (round half up on the true rational), in
integer tenths — for comparison against the program's double pipeline. -/
def specExactRound1Tenths (d T : Nat) : Nat := (2000 * d + T) / (2 * T)

/-- `totalDuration > 0 ? ((item.duration / totalDuration) * 100).toFixed(1) + '%' : '0%'`,
line 156: one forced decimal digit, then a percent sign. -/
def pctString (d T : Nat) : String :=
  if 0 < T then
    natDecStr (pctTenths d T / 10) ++ "." ++ natDecStr (pctTenths d T % 10) ++ "%"
  else "0%"

/-- One row of `formattedSummary` (lines 151–157). -/
structure FormattedSummaryEntry where
  activity : String
  group : String
  duration : String
  durationSeconds : Nat
  percentage : String
  deriving Repr, DecidableEq

def formatSummaryEntry (T : Nat) (item : SummaryEntry) : FormattedSummaryEntry :=
  { activity := item.activity
    group := jsGroup item.group
    duration := formatDuration item.duration
    durationSeconds := item.duration
    percentage := pctString item.duration T }

/-- The `formattedSummary` array of `getDailySummary` (lines 148–157): sort
descending by duration, then format each row. -/
def formattedSummary (entries : List SummaryEntry) : List FormattedSummaryEntry :=
  (sortDesc entries).map (formatSummaryEntry (totalDuration entries))

/-- Sum of the integer percentage tenths over all formatted entries. -/
def sumPctTenths (entries : List SummaryEntry) : Nat :=
  (entries.map (fun e => pctTenths e.duration (totalDuration entries))).sum

/-- Non-increasing durations. -/
def DescSorted (l : List SummaryEntry) : Prop :=
  List.Pairwise (fun a b => b.duration ≤ a.duration) l

/-! ## Lemmas: the stable descending sort -/

theorem insertDesc_perm (x : SummaryEntry) (l : List SummaryEntry) :
    List.Perm (insertDesc x l) (x :: l) := by
  induction l with
  | nil => rfl
  | cons y ys ih =>
    unfold insertDesc
    by_cases h : y.duration < x.duration
    · rw [if_pos h]
    · rw [if_neg h]
      exact (ih.cons y).trans (List.Perm.swap x y ys)

theorem insertDesc_sorted (x : SummaryEntry) (l : List SummaryEntry)
    (h : DescSorted l) : DescSorted (insertDesc x l) := by
  induction l with
  | nil => exact List.pairwise_singleton _ x
  | cons y ys ih =>
    rcases List.pairwise_cons.mp h with ⟨hy, hys⟩
    unfold insertDesc
    by_cases hlt : y.duration < x.duration
    · rw [if_pos hlt]
      refine List.pairwise_cons.mpr ⟨?_, h⟩
      intro b hb
      rcases List.mem_cons.mp hb with rfl | hb'
      · omega
      · have := hy b hb'
        omega
    · rw [if_neg hlt]
      refine List.pairwise_cons.mpr ⟨?_, ih hys⟩
      intro b hb
      have hmem := (insertDesc_perm x ys).mem_iff.mp hb
      rcases List.mem_cons.mp hmem with rfl | hb'
      · omega
      · exact hy b hb'

theorem filter_dur_cons_pos (v : Nat) (x : SummaryEntry) (l : List SummaryEntry)
    (hx : x.duration = v) :
    List.filter (fun e => e.duration == v) (x :: l) =
      x :: List.filter (fun e => e.duration == v) l := by
  simp [List.filter_cons, hx]

theorem filter_dur_cons_neg (v : Nat) (x : SummaryEntry) (l : List SummaryEntry)
    (hx : x.duration ≠ v) :
    List.filter (fun e => e.duration == v) (x :: l) =
      List.filter (fun e => e.duration == v) l := by
  simp [List.filter_cons, beq_iff_eq, hx]

theorem insertDesc_filter_eq (x : SummaryEntry) (l : List SummaryEntry) (v : Nat)
    (hs : DescSorted l) (hx : x.duration = v) :
    (insertDesc x l).filter (fun e => e.duration == v) =
      l.filter (fun e => e.duration == v) ++ [x] := by
  induction l with
  | nil =>
    show List.filter (fun e => e.duration == v) [x] = List.filter (fun e => e.duration == v) [] ++ [x]
    rw [filter_dur_cons_pos v x [] hx]
    rfl
  | cons y ys ih =>
    rcases List.pairwise_cons.mp hs with ⟨hy, hys⟩
    unfold insertDesc
    by_cases hlt : y.duration < x.duration
    · rw [if_pos hlt]
      have hnil : (y :: ys).filter (fun e => e.duration == v) = [] := by
        rw [List.filter_eq_nil_iff]
        intro b hb
        have hble : b.duration < v := by
          rcases List.mem_cons.mp hb with rfl | hb'
          · omega
          · have := hy b hb'
            omega
        simp only [beq_iff_eq]
        omega
      rw [filter_dur_cons_pos v x _ hx, hnil]
      rfl
    · rw [if_neg hlt]
      by_cases hyv : y.duration = v
      · rw [filter_dur_cons_pos v y _ hyv, filter_dur_cons_pos v y _ hyv, ih hys,
          List.cons_append]
      · rw [filter_dur_cons_neg v y _ hyv, filter_dur_cons_neg v y _ hyv, ih hys]

theorem insertDesc_filter_ne (x : SummaryEntry) (l : List SummaryEntry) (v : Nat)
    (hx : x.duration ≠ v) :
    (insertDesc x l).filter (fun e => e.duration == v) =
      l.filter (fun e => e.duration == v) := by
  induction l with
  | nil =>
    show List.filter (fun e => e.duration == v) [x] = List.filter (fun e => e.duration == v) []
    rw [filter_dur_cons_neg v x [] hx]
  | cons y ys ih =>
    unfold insertDesc
    by_cases hlt : y.duration < x.duration
    · rw [if_pos hlt, filter_dur_cons_neg v x _ hx]
    · rw [if_neg hlt]
      by_cases hyv : y.duration = v
      · rw [filter_dur_cons_pos v y _ hyv, filter_dur_cons_pos v y _ hyv, ih]
      · rw [filter_dur_cons_neg v y _ hyv, filter_dur_cons_neg v y _ hyv, ih]

theorem sortDesc_fold (l : List SummaryEntry) : ∀ acc, DescSorted acc →
    DescSorted (l.foldl (fun acc x => insertDesc x acc) acc)
    ∧ List.Perm (l.foldl (fun acc x => insertDesc x acc) acc) (acc ++ l)
    ∧ ∀ v, (l.foldl (fun acc x => insertDesc x acc) acc).filter (fun e => e.duration == v) =
        acc.filter (fun e => e.duration == v) ++ l.filter (fun e => e.duration == v) := by
  induction l with
  | nil =>
    intro acc hacc
    refine ⟨hacc, ?_, ?_⟩
    · simp
    · intro v
      simp
  | cons x xs ih =>
    intro acc hacc
    have hstep := ih (insertDesc x acc) (insertDesc_sorted x acc hacc)
    rw [List.foldl_cons]
    refine ⟨hstep.1, ?_, ?_⟩
    · refine (hstep.2.1.trans (((insertDesc_perm x acc).append_right xs).trans ?_))
      exact (List.perm_middle).symm
    · intro v
      rw [hstep.2.2 v]
      by_cases hxv : x.duration = v
      · rw [insertDesc_filter_eq x acc v hacc hxv, filter_dur_cons_pos v x xs hxv,
          List.append_assoc]
        rfl
      · rw [insertDesc_filter_ne x acc v hxv, filter_dur_cons_neg v x xs hxv]

theorem sortDesc_sorted (l : List SummaryEntry) : DescSorted (sortDesc l) :=
  (sortDesc_fold l [] List.Pairwise.nil).1

theorem sortDesc_perm (l : List SummaryEntry) : List.Perm (sortDesc l) l :=
  (sortDesc_fold l [] List.Pairwise.nil).2.1

theorem sortDesc_filter (l : List SummaryEntry) (v : Nat) :
    (sortDesc l).filter (fun e => e.duration == v) =
      l.filter (fun e => e.duration == v) :=
  (sortDesc_fold l [] List.Pairwise.nil).2.2 v

/-! ## Lemmas: the binary64 rounding model -/

theorem log2fuel_congr : ∀ f g n, n ≤ f → n ≤ g → log2fuel f n = log2fuel g n := by
  intro f
  induction f with
  | zero =>
    intro g n hf _hg
    have hn : n = 0 := by omega
    subst hn
    cases g with
    | zero => rfl
    | succ g' => simp [log2fuel]
  | succ f' ih =>
    intro g n hf hg
    cases g with
    | zero =>
      have hn : n = 0 := by omega
      subst hn
      simp [log2fuel]
    | succ g' =>
      simp only [log2fuel]
      by_cases h : n < 2
      · simp [h]
      · simp only [h, ite_false]
        have hdiv : n / 2 < n := Nat.div_lt_self (by omega) (by omega)
        rw [ih g' (n / 2) (by omega) (by omega)]

theorem nlog2_eq (n : Nat) :
    nlog2 n = if n < 2 then 0 else nlog2 (n / 2) + 1 := by
  unfold nlog2
  cases n with
  | zero => simp [log2fuel]
  | succ m =>
    simp only [log2fuel]
    by_cases h : m + 1 < 2
    · simp [h]
    · simp only [h, ite_false]
      have hdiv : (m + 1) / 2 < m + 1 := Nat.div_lt_self (by omega) (by omega)
      rw [log2fuel_congr m ((m + 1) / 2) ((m + 1) / 2) (by omega) le_rfl]

theorem nlog2_bracket (n : Nat) (h : 0 < n) :
    2 ^ nlog2 n ≤ n ∧ n < 2 ^ (nlog2 n + 1) := by
  induction n using Nat.strong_induction_on with
  | _ n ih =>
    rw [nlog2_eq]
    by_cases h2 : n < 2
    · simp only [h2, ite_true, pow_zero, pow_one]
      omega
    · simp only [h2, ite_false]
      have hdiv : n / 2 < n := Nat.div_lt_self (by omega) (by omega)
      have hpos : 0 < n / 2 := by omega
      obtain ⟨hl, hr⟩ := ih (n / 2) hdiv hpos
      have e1 := pow_succ 2 (nlog2 (n / 2))
      have e2 := pow_succ 2 (nlog2 (n / 2) + 1)
      omega

theorem rneDiv_err (a b : ℕ) (hb : 0 < b) :
    |(rneDiv a b : ℚ) - (a : ℚ) / b| ≤ 1 / 2 := by
  have hb' : (0 : ℚ) < (b : ℚ) := by exact_mod_cast hb
  have hmod := Nat.div_add_mod a b
  have hrb : a % b < b := Nat.mod_lt _ hb
  have hval : (a : ℚ) / b = ((a / b : ℕ) : ℚ) + ((a % b : ℕ) : ℚ) / b := by
    have hcast : (a : ℚ) = (b : ℚ) * ((a / b : ℕ) : ℚ) + ((a % b : ℕ) : ℚ) := by
      exact_mod_cast hmod.symm
    field_simp
    linear_combination hcast
  have h0 : (0 : ℚ) ≤ ((a % b : ℕ) : ℚ) / b := by positivity
  have h1' : ((a % b : ℕ) : ℚ) / b ≤ 1 := by
    rw [div_le_one hb']
    exact_mod_cast hrb.le
  unfold rneDiv
  simp only []
  split_ifs with h1 h2 h3
  · have hlt : ((a % b : ℕ) : ℚ) / b < 1 / 2 := by
      rw [div_lt_iff hb']
      have : (2 : ℚ) * (a % b : ℕ) < b := by exact_mod_cast h1
      linarith
    rw [hval, abs_le]
    constructor <;> linarith
  · have hgt : 1 / 2 < ((a % b : ℕ) : ℚ) / b := by
      rw [lt_div_iff hb']
      have : (b : ℚ) < 2 * (a % b : ℕ) := by exact_mod_cast h2
      linarith
    rw [hval, abs_le]
    push_cast
    constructor <;> linarith
  · have h2r : (2 : ℚ) * ((a % b : ℕ) : ℚ) = (b : ℚ) := by
      exact_mod_cast (show 2 * (a % b) = b by omega)
    have heq : ((a % b : ℕ) : ℚ) / b = 1 / 2 := by
      rw [div_eq_iff (ne_of_gt hb')]
      linarith
    rw [hval, abs_le]
    constructor <;> linarith
  · have h2r : (2 : ℚ) * ((a % b : ℕ) : ℚ) = (b : ℚ) := by
      exact_mod_cast (show 2 * (a % b) = b by omega)
    have heq : ((a % b : ℕ) : ℚ) / b = 1 / 2 := by
      rw [div_eq_iff (ne_of_gt hb')]
      linarith
    rw [hval, abs_le]
    push_cast
    constructor <;> linarith

theorem le2pow_iff (e : ℤ) (a b : ℕ) (hb : 0 < b) :
    le2pow e a b = true ↔ (2 : ℚ) ^ e ≤ (a : ℚ) / b := by
  have hb' : (0 : ℚ) < (b : ℚ) := by exact_mod_cast hb
  unfold le2pow
  split_ifs with hs
  · rw [decide_eq_true_eq]
    have he : e = (e.toNat : ℤ) := (Int.toNat_of_nonneg hs).symm
    rw [he, zpow_natCast, le_div_iff hb']
    constructor <;> intro h <;> exact_mod_cast h
  · rw [decide_eq_true_eq]
    set k := (-e).toNat with hk
    have hz : (2 : ℚ) ^ e = ((2 : ℚ) ^ k)⁻¹ := by
      rw [show e = -(k : ℤ) by omega, zpow_neg, zpow_natCast]
    rw [hz, show ((2 : ℚ) ^ k)⁻¹ = 1 / 2 ^ k from (one_div _).symm,
      div_le_div_iff (by positivity) hb', one_mul, mul_comm]
    constructor <;> intro h <;> exact_mod_cast h

theorem ilog2pair_bracket (a b : ℕ) (ha : 0 < a) (hb : 0 < b) :
    (2 : ℚ) ^ ilog2pair a b ≤ (a : ℚ) / b ∧ (a : ℚ) / b < (2 : ℚ) ^ (ilog2pair a b + 1) := by
  have hb' : (0 : ℚ) < (b : ℚ) := by exact_mod_cast hb
  obtain ⟨hal, har⟩ := nlog2_bracket a ha
  obtain ⟨hbl, hbr⟩ := nlog2_bracket b hb
  unfold ilog2pair
  simp only []
  set e0 : ℤ := (nlog2 a : ℤ) - (nlog2 b : ℤ) with he0
  by_cases hc : le2pow e0 a b
  · rw [if_pos hc]
    refine ⟨(le2pow_iff e0 a b hb).mp hc, ?_⟩
    have hz : (2 : ℚ) ^ (e0 + 1) =
        ((2 ^ (nlog2 a + 1) : ℕ) : ℚ) / ((2 ^ nlog2 b : ℕ) : ℚ) := by
      push_cast
      rw [← zpow_natCast (2 : ℚ) (nlog2 a + 1), ← zpow_natCast (2 : ℚ) (nlog2 b),
        ← zpow_sub₀ (by norm_num : (2 : ℚ) ≠ 0)]
      congr 1
      push_cast
      omega
    rw [hz, div_lt_div_iff hb' (by positivity)]
    have hN : a * 2 ^ nlog2 b < 2 ^ (nlog2 a + 1) * b := by
      calc a * 2 ^ nlog2 b < 2 ^ (nlog2 a + 1) * 2 ^ nlog2 b := by
            exact Nat.mul_lt_mul_of_lt_of_le har le_rfl (by positivity)
        _ ≤ 2 ^ (nlog2 a + 1) * b := Nat.mul_le_mul_left _ hbl
    exact_mod_cast hN
  · rw [if_neg hc]
    have hgt : (a : ℚ) / b < (2 : ℚ) ^ e0 :=
      lt_of_not_le fun hcon => hc ((le2pow_iff e0 a b hb).mpr hcon)
    refine ⟨?_, by rw [show e0 - 1 + 1 = e0 by ring]; exact hgt⟩
    have hz : (2 : ℚ) ^ (e0 - 1) =
        ((2 ^ nlog2 a : ℕ) : ℚ) / ((2 ^ (nlog2 b + 1) : ℕ) : ℚ) := by
      push_cast
      rw [← zpow_natCast (2 : ℚ) (nlog2 a), ← zpow_natCast (2 : ℚ) (nlog2 b + 1),
        ← zpow_sub₀ (by norm_num : (2 : ℚ) ≠ 0)]
      congr 1
      push_cast
      omega
    rw [hz, div_le_div_iff (by positivity) hb']
    have hN : 2 ^ nlog2 a * b ≤ a * 2 ^ (nlog2 b + 1) := Nat.mul_le_mul hal hbr.le
    exact_mod_cast hN

theorem roundAtScale_err (a b : ℕ) (s : ℤ) (hb : 0 < b) :
    |(roundAtScale a b s : ℚ) - ((a : ℚ) / b) * (2 : ℚ) ^ (-s)| ≤ 1 / 2 := by
  have hb' : (0 : ℚ) < (b : ℚ) := by exact_mod_cast hb
  unfold roundAtScale
  split_ifs with hs
  · have h2 : (0 : ℕ) < b * 2 ^ s.toNat := by positivity
    have herr := rneDiv_err a (b * 2 ^ s.toNat) h2
    have hval : ((a : ℚ) / b) * (2 : ℚ) ^ (-s) = (a : ℚ) / ((b * 2 ^ s.toNat : ℕ) : ℚ) := by
      rw [show -s = -((s.toNat : ℕ) : ℤ) by omega, zpow_neg, zpow_natCast]
      push_cast
      rw [eq_div_iff (by positivity)]
      field_simp
    rw [hval]
    exact herr
  · have herr := rneDiv_err (a * 2 ^ (-s).toNat) b hb
    have hval : ((a : ℚ) / b) * (2 : ℚ) ^ (-s) = ((a * 2 ^ (-s).toNat : ℕ) : ℚ) / b := by
      set k := (-s).toNat with hk
      rw [show -s = ((k : ℕ) : ℤ) by omega, zpow_natCast]
      push_cast
      ring
    rw [hval]
    exact herr

theorem mulPow2Pair_spec (m : ℕ) (s : ℤ) :
    0 < (mulPow2Pair m s).2
    ∧ (((mulPow2Pair m s).1 : ℕ) : ℚ) / (((mulPow2Pair m s).2 : ℕ) : ℚ)
        = (m : ℚ) * (2 : ℚ) ^ s := by
  unfold mulPow2Pair
  split_ifs with hs
  · refine ⟨by norm_num, ?_⟩
    show ((m * 2 ^ s.toNat : ℕ) : ℚ) / ((1 : ℕ) : ℚ) = (m : ℚ) * (2 : ℚ) ^ s
    set t := s.toNat with ht
    rw [show s = ((t : ℕ) : ℤ) by omega, zpow_natCast]
    push_cast
    rw [div_one]
  · refine ⟨by positivity, ?_⟩
    show ((m : ℕ) : ℚ) / ((2 ^ (-s).toNat : ℕ) : ℚ) = (m : ℚ) * (2 : ℚ) ^ s
    set k := (-s).toNat with hk
    rw [show s = -((k : ℕ) : ℤ) by omega, zpow_neg, zpow_natCast]
    push_cast
    rw [div_eq_mul_inv]

theorem flPair_err (a b : ℕ) :
    0 ≤ ((flPair a b).1 : ℚ) * (2 : ℚ) ^ (flPair a b).2
    ∧ |((flPair a b).1 : ℚ) * (2 : ℚ) ^ (flPair a b).2 - (a : ℚ) / b|
        ≤ ((a : ℚ) / b) / 2 ^ 53 + 1 / 2 ^ 1075 := by
  by_cases h0 : a = 0 ∨ b = 0
  · have hz : (a : ℚ) / b = 0 := by
      rcases h0 with h | h <;> subst h <;> simp
    unfold flPair
    rw [if_pos h0]
    rw [hz]
    constructor
    · norm_num
    · norm_num
  · push_neg at h0
    obtain ⟨ha, hb⟩ := h0
    have ha' : 0 < a := Nat.pos_of_ne_zero ha
    have hb' : 0 < b := Nat.pos_of_ne_zero hb
    have hbq : (0 : ℚ) < (b : ℚ) := by exact_mod_cast hb'
    have hq : (0 : ℚ) < (a : ℚ) / b := by
      apply div_pos _ hbq
      exact_mod_cast ha'
    obtain ⟨hbl, hbr⟩ := ilog2pair_bracket a b ha' hb'
    unfold flPair
    rw [if_neg (by push_neg; exact ⟨ha, hb⟩)]
    simp only []
    set e := ilog2pair a b with he
    set s : ℤ := max (e - 52) (-1074) with hsdef
    have hpow : (0 : ℚ) < (2 : ℚ) ^ s := by positivity
    have herr := roundAtScale_err a b s hb'
    constructor
    · positivity
    · have h1 : ((roundAtScale a b s : ℕ) : ℚ) * (2 : ℚ) ^ s - (a : ℚ) / b
          = (2 : ℚ) ^ s * (((roundAtScale a b s : ℕ) : ℚ) - ((a : ℚ) / b) * (2 : ℚ) ^ (-s)) := by
        rw [mul_sub, zpow_neg]
        field_simp
        ring
      have key : |((roundAtScale a b s : ℕ) : ℚ) * (2 : ℚ) ^ s - (a : ℚ) / b|
          = (2 : ℚ) ^ s * |((roundAtScale a b s : ℕ) : ℚ) - ((a : ℚ) / b) * (2 : ℚ) ^ (-s)| := by
        rw [h1, abs_mul, abs_of_pos hpow]
      rw [key]
      have hle : (2 : ℚ) ^ s * |((roundAtScale a b s : ℕ) : ℚ) -
          ((a : ℚ) / b) * (2 : ℚ) ^ (-s)| ≤ (2 : ℚ) ^ s * (1 / 2) :=
        mul_le_mul_of_nonneg_left herr (le_of_lt hpow)
      refine le_trans hle ?_
      have hhalf : (2 : ℚ) ^ s * (1 / 2) = (2 : ℚ) ^ (s - 1) := by
        rw [show (s - 1 : ℤ) = s + (-1) by ring, zpow_add₀ (by norm_num : (2 : ℚ) ≠ 0)]
        norm_num
      rw [hhalf]
      rcases max_choice (e - 52) (-1074) with hcase | hcase
    
      · rw [hsdef, hcase]
        have h2 : (2 : ℚ) ^ (e - 52 - 1) ≤ ((a : ℚ) / b) * (2 : ℚ) ^ (-53 : ℤ) := by
          rw [show (e - 52 - 1 : ℤ) = e + (-53) by ring,
            zpow_add₀ (by norm_num : (2 : ℚ) ≠ 0)]
          exact mul_le_mul_of_nonneg_right hbl (by positivity)
        have h3 : ((a : ℚ) / b) * (2 : ℚ) ^ (-53 : ℤ) = ((a : ℚ) / b) / 2 ^ 53 := by
          rw [show (-53 : ℤ) = -((53 : ℕ) : ℤ) by norm_num, zpow_neg, zpow_natCast]
          ring
        have h4 : (0 : ℚ) < 1 / 2 ^ 1075 := by positivity
        linarith
      · rw [hsdef, hcase]
        have h2 : ((2 : ℚ)) ^ (-1074 - 1 : ℤ) = 1 / 2 ^ 1075 := by
          rw [show (-1074 - 1 : ℤ) = -((1075 : ℕ) : ℤ) by norm_num, zpow_neg, zpow_natCast,
            one_div]
        have h4 : (0 : ℚ) ≤ ((a : ℚ) / b) / 2 ^ 53 := by positivity
        rw [h2]
        linarith

theorem totalDuration_aux (l : List SummaryEntry) : ∀ n : Nat,
    l.foldl (fun sum item => sum + item.duration) n = n + (l.map (fun e => e.duration)).sum := by
  induction l with
  | nil => intro n; simp
  | cons x xs ih =>
    intro n
    simp only [List.foldl_cons, List.map_cons, List.sum_cons, ih]
    omega

theorem totalDuration_eq_sum (l : List SummaryEntry) :
    totalDuration l = (l.map (fun e => e.duration)).sum := by
  unfold totalDuration
  rw [totalDuration_aux l 0]
  omega

/-- The final `toFixed(1)` step: the integer `(20A + B) / (2B)` is within half
a tenth of `10·(A/B)`. -/
theorem nearestTenth_err (A B : ℕ) (hB : 0 < B) :
    |(((20 * A + B) / (2 * B) : ℕ) : ℚ) - 10 * ((A : ℚ) / B)| ≤ 1 / 2 := by
  have hB2 : 0 < 2 * B := by omega
  have hdm := Nat.div_add_mod (20 * A + B) (2 * B)
  have hmod : (20 * A + B) % (2 * B) < 2 * B := Nat.mod_lt _ hB2
  have h1 : 2 * B * ((20 * A + B) / (2 * B)) ≤ 20 * A + B := by omega
  have h2 : 20 * A + B < 2 * B * ((20 * A + B) / (2 * B)) + 2 * B := by omega
  have hBq : (0 : ℚ) < (B : ℚ) := by exact_mod_cast hB
  have hA : (A : ℚ) = ((A : ℚ) / B) * B := (div_mul_cancel₀ _ (ne_of_gt hBq)).symm
  have h1q : 2 * (B : ℚ) * (((20 * A + B) / (2 * B) : ℕ) : ℚ) ≤ 20 * (A : ℚ) + B := by
    exact_mod_cast h1
  have h2q : 20 * (A : ℚ) + (B : ℚ) < 2 * B * (((20 * A + B) / (2 * B) : ℕ) : ℚ) + 2 * B := by
    exact_mod_cast h2
  rw [hA] at h1q h2q
  rw [abs_le]
  constructor
  · nlinarith [h2q, hBq]
  · nlinarith [h1q, hBq]

/-- Chaining the two binary64 roundings and the decimal rounding: if `x1`
approximates `x` and `x2` approximates `100·x1` to 53-bit relative accuracy
(plus the subnormal absolute slack) and `r` is within half a tenth of `x2`,
then `r` is within `1/2 + 2^-30` tenths of the exact `1000·x`, for `0 ≤ x ≤ 1`. -/
theorem pct_pipeline_err (x x1 x2 r : ℚ)
    (hx0 : 0 ≤ x) (hxle : x ≤ 1) (h1nn : 0 ≤ x1)
    (h1 : |x1 - x| ≤ x / 2 ^ 53 + 1 / 2 ^ 1075)
    (h2 : |x2 - 100 * x1| ≤ 100 * x1 / 2 ^ 53 + 1 / 2 ^ 1075)
    (h3 : |r - 10 * x2| ≤ 1 / 2) :
    |r - 1000 * x| ≤ 1 / 2 + 1 / 2 ^ 30 := by
  obtain ⟨h1a, h1b⟩ := abs_le.mp h1
  obtain ⟨h2a, h2b⟩ := abs_le.mp h2
  obtain ⟨h3a, h3b⟩ := abs_le.mp h3
  rw [abs_le]
  constructor <;> linarith

/-- The percentage the program prints is within `0.05 + 2^-31` percentage
points of the exact percentage, whenever `d ≤ T` (in tenths: within
`1/2 + 2^-30` of `1000·d/T`). -/
theorem pctTenths_err (d T : ℕ) (hT : 0 < T) (hdT : d ≤ T) :
    |((pctTenths d T : ℕ) : ℚ) - 1000 * ((d : ℚ) / T)| ≤ 1 / 2 + 1 / 2 ^ 30 := by
  have hTq : (0 : ℚ) < (T : ℚ) := by exact_mod_cast hT
  have hx0 : (0 : ℚ) ≤ (d : ℚ) / T := by positivity
  have hxle : (d : ℚ) / T ≤ 1 := by
    rw [div_le_one hTq]
    exact_mod_cast hdT
  obtain ⟨h1nn, h1err⟩ := flPair_err d T
  set p1 := flPair d T with hp1
  obtain ⟨hq1pos, hq1val⟩ := mulPow2Pair_spec (100 * p1.1) p1.2
  set q1 := mulPow2Pair (100 * p1.1) p1.2 with hq1
  obtain ⟨h2nn, h2err⟩ := flPair_err q1.1 q1.2
  set p2 := flPair q1.1 q1.2 with hp2
  obtain ⟨hq2pos, hq2val⟩ := mulPow2Pair_spec p2.1 p2.2
  set q2 := mulPow2Pair p2.1 p2.2 with hq2
  have hpct : pctTenths d T = (20 * q2.1 + q2.2) / (2 * q2.2) := by
    rw [hq2, hp2, hq1, hp1]
    rfl
  have hq1val' : (q1.1 : ℚ) / q1.2 = 100 * ((p1.1 : ℚ) * (2 : ℚ) ^ p1.2) := by
    rw [hq1val]
    push_cast
    ring
  rw [hq1val'] at h2err
  have hfin := nearestTenth_err q2.1 q2.2 hq2pos
  rw [hq2val] at hfin
  rw [hpct]
  exact pct_pipeline_err ((d : ℚ) / T) ((p1.1 : ℚ) * (2 : ℚ) ^ p1.2)
    ((p2.1 : ℚ) * (2 : ℚ) ^ p2.2) _ hx0 hxle h1nn h1err h2err hfin

/-- Summing the per-entry bound over a duration list with a common total. -/
theorem sum_pct_err (T : ℕ) (hT : 0 < T) (l : List ℕ) (hle : ∀ d ∈ l, d ≤ T) :
    |(((l.map (fun d => pctTenths d T)).sum : ℕ) : ℚ) - 1000 * ((l.sum : ℚ) / T)|
      ≤ (l.length : ℚ) * (1 / 2 + 1 / 2 ^ 30) := by
  induction l with
  | nil => simp
  | cons d tl ih =>
    have h1 := pctTenths_err d T hT (hle d (List.mem_cons_self d tl))
    have h2 := ih (fun x hx => hle x (List.mem_cons_of_mem d hx))
    simp only [List.map_cons, List.sum_cons, List.length_cons]
    simp only [Nat.cast_add, Nat.cast_one]
    have key : ((pctTenths d T : ℚ) + (((tl.map (fun d => pctTenths d T)).sum : ℕ) : ℚ))
        - 1000 * (((d : ℚ) + ((tl.sum : ℕ) : ℚ)) / T)
        = ((pctTenths d T : ℚ) - 1000 * ((d : ℚ) / T))
          + ((((tl.map (fun d => pctTenths d T)).sum : ℕ) : ℚ)
              - 1000 * (((tl.sum : ℕ) : ℚ) / T)) := by
      field_simp
      ring
    rw [key]
    have htri := abs_add ((pctTenths d T : ℚ) - 1000 * ((d : ℚ) / T))
      ((((tl.map (fun d => pctTenths d T)).sum : ℕ) : ℚ) - 1000 * (((tl.sum : ℕ) : ℚ) / T))
    linarith

/-! ## Claim theorems: summary sorting and percentages -/

/-- C3 (corrected): summary rows are emitted sorted descending by
`durationSeconds`; the sort is a permutation of the upstream rows that
preserves upstream order among equal durations (filter at every duration
value is unchanged); each row's percentage string renders the binary64
evaluation of `(duration / total) * 100` through `toFixed(1)` with a `%`
sign — which is NOT always the exact one-decimal rounding of the rational
`duration/total·100`: 23 of 80 renders `28.7%` (the double is
28.749999999999996) while exact rounding of 28.75 gives 28.8 — and when the
total duration is 0 every percentage is exactly `0%` (e.g. 3600 of 5400
renders `66.7%`, 1800 of 5400 renders `33.3%`, 57 of 80 renders `71.3%`
although the exact value is 71.25). -/
theorem summary_sort_percentage_spec (entries : List SummaryEntry) :
    formattedSummary entries =
      (sortDesc entries).map (formatSummaryEntry (totalDuration entries))
    ∧ List.Pairwise (fun a b => b.durationSeconds ≤ a.durationSeconds)
        (formattedSummary entries)
    ∧ List.Perm (sortDesc entries) entries
    ∧ (∀ v, (sortDesc entries).filter (fun e => e.duration == v) =
        entries.filter (fun e => e.duration == v))
    ∧ ((formattedSummary entries).map (fun e => e.percentage) =
        (sortDesc entries).map (fun e => pctString e.duration (totalDuration entries)))
    ∧ (∀ d, pctString d 0 = "0%")
    ∧ pctString 3600 5400 = "66.7%" ∧ pctString 1800 5400 = "33.3%"
    ∧ pctString 23 80 = "28.7%" ∧ pctString 57 80 = "71.3%" := by
  refine ⟨rfl, ?_, sortDesc_perm entries, sortDesc_filter entries, ?_,
    fun d => rfl, by decide, by decide, by decide, by decide⟩
  · have h := sortDesc_sorted entries
    unfold formattedSummary
    rw [List.pairwise_map]
    exact h
  · unfold formattedSummary
    rw [List.map_map]
    rfl

/-- C3 counterexample: for duration 23 of total 80 the program prints `28.7%`
(the double `(23/80)*100` is 28.749999999999996, and `toFixed(1)` rounds it
down), while the exact one-decimal rounding of the rational 28.75 is 28.8
tenths-of-a-percent 288 — so the percentage is not "duration divided by the
total duration, times 100, rounded to one decimal". -/
theorem summary_percentage_double_counterexample :
    pctString 23 80 = "28.7%"
    ∧ specExactRound1Tenths 23 80 = 288
    ∧ pctString 23 80 ≠ "28.8%" := by
  refine ⟨by decide, by decide, by decide⟩

/-- C4 (corrected): whenever the total duration is positive, the integer
percentage tenths over all summary entries sum to strictly within `n` tenths
of 1000 (`n` = number of entries): each printed percentage is within
`0.05 + 2^-31` percentage points of its exact value, so the sum deviates from
100% by strictly less than `0.1 × n` points. (As literally stated the claim is
false: with total duration 0 every percentage is `0%` and the sum is 0%, and
even with positive total the deviation is decimal-rounding accumulation —
three equal durations sum to 99.9% — not a floating-point epsilon.) -/
theorem percentages_sum_spec (entries : List SummaryEntry)
    (hT : 0 < totalDuration entries) :
    1000 < sumPctTenths entries + entries.length
    ∧ sumPctTenths entries < 1000 + entries.length := by
  have hTq : (0 : ℚ) < (totalDuration entries : ℚ) := by exact_mod_cast hT
  have hne : entries ≠ [] := by
    intro h
    rw [h] at hT
    simp [totalDuration] at hT
  have hlen : 0 < entries.length := List.length_pos.mpr hne
  have hmem : ∀ d ∈ entries.map (fun e => e.duration), d ≤ totalDuration entries := by
    intro d hd
    rw [totalDuration_eq_sum]
    exact List.single_le_sum (fun x _ => Nat.zero_le x) d hd
  have hsum := sum_pct_err (totalDuration entries) hT (entries.map (fun e => e.duration)) hmem
  have hms : (entries.map (fun e => e.duration)).sum = totalDuration entries :=
    (totalDuration_eq_sum entries).symm
  rw [hms] at hsum
  have hmm : (entries.map (fun e => e.duration)).map
      (fun d => pctTenths d (totalDuration entries))
      = entries.map (fun e => pctTenths e.duration (totalDuration entries)) := by
    rw [List.map_map]
    rfl
  rw [hmm] at hsum
  rw [div_self (ne_of_gt hTq), mul_one, List.length_map] at hsum
  have hSdef : (entries.map (fun e => pctTenths e.duration (totalDuration entries))).sum
      = sumPctTenths entries := rfl
  rw [hSdef] at hsum
  obtain ⟨ha, hb⟩ := abs_le.mp hsum
  have hlenq : (1 : ℚ) ≤ (entries.length : ℚ) := by exact_mod_cast hlen
  have hstep : (entries.length : ℚ) * (1 / 2 + 1 / 2 ^ 30) < (entries.length : ℚ) := by
    nlinarith
  constructor
  · have h : (1000 : ℚ) < (sumPctTenths entries : ℚ) + (entries.length : ℚ) := by linarith
    exact_mod_cast h
  · have h : ((sumPctTenths entries : ℕ) : ℚ) < 1000 + (entries.length : ℚ) := by linarith
    exact_mod_cast h

/-- C4 witness: three one-second entries; the tenths sum to 999 (`33.3%`
three times), strictly within 3 tenths of 1000. -/
theorem percentages_sum_witness :
    0 < totalDuration [⟨"A", none, 1⟩, ⟨"B", none, 1⟩, ⟨"C", none, 1⟩]
    ∧ (1000 < sumPctTenths [⟨"A", none, 1⟩, ⟨"B", none, 1⟩, ⟨"C", none, 1⟩]
          + ([⟨"A", none, 1⟩, ⟨"B", none, 1⟩, ⟨"C", none, 1⟩] : List SummaryEntry).length
      ∧ sumPctTenths [⟨"A", none, 1⟩, ⟨"B", none, 1⟩, ⟨"C", none, 1⟩]
          < 1000 + ([⟨"A", none, 1⟩, ⟨"B", none, 1⟩, ⟨"C", none, 1⟩] :
              List SummaryEntry).length) :=
  ⟨by decide, percentages_sum_spec _ (by decide)⟩

/-- C4 counterexample: a single all-zero entry renders `0%` and the sum is 0%,
not 100%; and three equal one-second entries sum to 99.9%, a deviation of
0.1% — decimal-rounding accumulation, not a floating tolerance. -/
theorem percentages_sum_counterexample :
    (formattedSummary [⟨"A", none, 0⟩]).map (fun e => e.percentage) = ["0%"]
    ∧ sumPctTenths [⟨"A", none, 0⟩] = 0
    ∧ sumPctTenths [⟨"A", none, 1⟩, ⟨"B", none, 1⟩, ⟨"C", none, 1⟩] = 999
    ∧ sumPctTenths [⟨"A", none, 1⟩, ⟨"B", none, 1⟩, ⟨"C", none, 1⟩] ≠ 1000 := by
  refine ⟨by decide, by decide, by decide, by decide⟩

/-! ## Activity listing (`daily-tools.ts` lines 83–109) -/

/-- `DailyActivity`: the fields the tool layer reads. -/
structure Activity where
  name : String
  group : Option String
  archived : Bool
  deriving Repr, DecidableEq

/-- `activities.filter(a => a.archived).length`, line 85. -/
def archivedCount (acts : List Activity) : Nat := (acts.filter (fun a => a.archived)).length

/-- `totalActivities - archivedCount`, line 86. -/
def activeCount (acts : List Activity) : Nat := acts.length - archivedCount acts

/-- The successful branch of one `reduce` step at lines 89–96: push the
activity onto the bucket keyed `activity.group || 'Ungrouped'`, creating the
bucket at the end of the key order if it is new (JS objects preserve
string-key insertion order). See `addToGroupsJS` for the `TypeError` path the
plain-object accumulator also has. -/
def addToGroups : List (String × List Activity) → Activity → List (String × List Activity)
  | [], a => [(jsGroup a.group, [a])]
  | (k, l) :: rest, a =>
    if k == jsGroup a.group then (k, l ++ [a]) :: rest
    else (k, l) :: addToGroups rest a

/-- `groupedActivities`, lines 89–96, on inputs where the reduce completes
(see `groupedActivitiesJS` for the faithful fallible version). -/
def groupedActivities (acts : List Activity) : List (String × List Activity) :=
  acts.foldl addToGroups []

/-- The property names a plain JS object (`Object.create` default, i.e. the
literal `\x7b\x7d`) inherits from `Object.prototype` (plus the `__proto__`
accessor): reading any of these names on an accumulator without an own
property of that name yields a truthy non-array value. -/
def OBJECT_PROTOTYPE_MEMBERS : List String :=
  ["constructor", "hasOwnProperty", "isPrototypeOf", "propertyIsEnumerable",
    "toLocaleString", "toString", "valueOf", "__proto__", "__defineGetter__",
    "__defineSetter__", "__lookupGetter__", "__lookupSetter__"]

/-- One step of the `reduce` at lines 89–96 as the plain-object accumulator
actually behaves: `acc[groupName]` also sees properties inherited from
`Object.prototype`, so when the bucket is not an own property but the name is
inherited, the guard `if (!acc[groupName])` is skipped and
`acc[groupName].push(activity)` throws a `TypeError`; otherwise the step is
the clean bucket insertion `addToGroups`. -/
def addToGroupsJS (acc : List (String × List Activity)) (a : Activity) :
    Except String (List (String × List Activity)) :=
  if (List.lookup (jsGroup a.group) acc).isNone
      && OBJECT_PROTOTYPE_MEMBERS.contains (jsGroup a.group) then
    Except.error "TypeError: acc[groupName].push is not a function"
  else
    Except.ok (addToGroups acc a)

/-- The full `reduce` with the plain-object semantics: the first `TypeError`
aborts it (the handler's `catch` then returns an error envelope instead of a
listing). -/
def foldGroupsJS : List (String × List Activity) → List Activity →
    Except String (List (String × List Activity))
  | acc, [] => Except.ok acc
  | acc, a :: rest =>
    match addToGroupsJS acc a with
    | Except.error e => Except.error e
    | Except.ok acc2 => foldGroupsJS acc2 rest

/-- `groupedActivities` as computed by the program, lines 89–96. -/
def groupedActivitiesJS (acts : List Activity) :
    Except String (List (String × List Activity)) :=
  foldGroupsJS [] acts

/-! ## Lemmas: grouping is an order-preserving partition -/

theorem lookup_addToGroups (acc : List (String × List Activity)) (a : Activity) (k : String) :
    List.lookup k (addToGroups acc a) =
      if k == jsGroup a.group then
        match List.lookup k acc with
        | some b => some (b ++ [a])
        | none => some [a]
      else List.lookup k acc := by
  induction acc with
  | nil =>
    simp only [addToGroups, List.lookup]
    by_cases h : k = jsGroup a.group
    · simp [h]
    · have hb : (k == jsGroup a.group) = false := by simp [h]
      simp [List.lookup, hb]
  | cons p rest ih =>
    obtain ⟨k', l'⟩ := p
    simp only [addToGroups]
    by_cases h1 : k' = jsGroup a.group
    · rw [if_pos (by simp [h1])]
      by_cases h2 : k = k'
      · subst h2
        simp [List.lookup, h1]
      · have hne : (k == k') = false := by simp [h2]
        simp only [List.lookup, hne]
        have : (k == jsGroup a.group) = false := by
          simp only [beq_eq_false_iff_ne]
          rw [← h1]
          exact h2
        simp [this]
    · rw [if_neg (by simp [h1])]
      by_cases h2 : k = k'
      · subst h2
        have : (k == jsGroup a.group) = false := by simp [h1]
        simp [List.lookup, this]
      · have hne : (k == k') = false := by simp [h2]
        simp only [List.lookup, hne, ih]

theorem lookup_groups_fold (l : List Activity) :
    ∀ (acc : List (String × List Activity)) (k : String),
    List.lookup k (l.foldl addToGroups acc) =
      match List.lookup k acc with
      | some b => some (b ++ l.filter (fun a => jsGroup a.group == k))
      | none =>
        if l.any (fun a => jsGroup a.group == k) then
          some (l.filter (fun a => jsGroup a.group == k))
        else none := by
  induction l with
  | nil =>
    intro acc k
    cases h : List.lookup k acc <;> simp [h]
  | cons a l' ih =>
    intro acc k
    rw [List.foldl_cons, ih (addToGroups acc a) k, lookup_addToGroups acc a k]
    by_cases hk : jsGroup a.group = k
    · have hb : (k == jsGroup a.group) = true := by simp [hk]
      have hb' : (jsGroup a.group == k) = true := by simp [hk]
      rw [if_pos hb]
      cases h : List.lookup k acc <;>
        simp [h, List.filter_cons, hb', List.any_cons]
    · have hb : (k == jsGroup a.group) = false := by
        rw [beq_eq_false_iff_ne]
        exact fun h => hk h.symm
      have hb' : (jsGroup a.group == k) = false := by
        rw [beq_eq_false_iff_ne]
        exact hk
      rw [if_neg (by simp [hb])]
      cases h : List.lookup k acc <;>
        simp [h, List.filter_cons, hb', List.any_cons]

theorem join_addToGroups (acc : List (String × List Activity)) (a : Activity) :
    List.Perm ((addToGroups acc a).map Prod.snd).flatten (((acc.map Prod.snd).flatten) ++ [a]) := by
  induction acc with
  | nil =>
    simp only [addToGroups, List.map_cons, List.map_nil, List.flatten_cons,
      List.flatten_nil, List.append_nil, List.nil_append]
    exact List.Perm.refl _
  | cons p rest ih =>
    obtain ⟨k', l'⟩ := p
    simp only [addToGroups]
    by_cases h : k' = jsGroup a.group
    · rw [if_pos (by simp [h])]
      simp only [List.map_cons, List.flatten_cons]
      rw [List.append_assoc, List.append_assoc]
      exact List.Perm.append_left l' List.perm_append_comm
    · rw [if_neg (by simp [h])]
      simp only [List.map_cons, List.flatten_cons]
      rw [List.append_assoc]
      exact List.Perm.append_left l' ih

theorem join_groups_fold (l : List Activity) : ∀ acc,
    List.Perm ((l.foldl addToGroups acc).map Prod.snd).flatten (((acc.map Prod.snd).flatten) ++ l) := by
  induction l with
  | nil =>
    intro acc
    rw [List.foldl_nil, List.append_nil]
  | cons a l' ih =>
    intro acc
    rw [List.foldl_cons]
    refine (ih (addToGroups acc a)).trans ?_
    refine ((join_addToGroups acc a).append_right l').trans ?_
    rw [List.append_assoc]
    exact List.Perm.refl _

theorem addToGroupsJS_safe (acc : List (String × List Activity)) (a : Activity)
    (h : OBJECT_PROTOTYPE_MEMBERS.contains (jsGroup a.group) = false) :
    addToGroupsJS acc a = Except.ok (addToGroups acc a) := by
  unfold addToGroupsJS
  rw [h, Bool.and_false]
  simp

theorem foldGroupsJS_safe (l : List Activity) :
    ∀ acc : List (String × List Activity),
      (∀ a ∈ l, OBJECT_PROTOTYPE_MEMBERS.contains (jsGroup a.group) = false) →
      foldGroupsJS acc l = Except.ok (List.foldl addToGroups acc l) := by
  induction l with
  | nil =>
    intro acc h
    rfl
  | cons x xs ih =>
    intro acc h
    show (match addToGroupsJS acc x with
      | Except.error e => Except.error e
      | Except.ok acc2 => foldGroupsJS acc2 xs)
      = Except.ok (List.foldl addToGroups acc (x :: xs))
    rw [addToGroupsJS_safe acc x (h x (List.mem_cons_self x xs))]
    show foldGroupsJS (addToGroups acc x) xs = _
    rw [List.foldl_cons]
    exact ih _ (fun a ha => h a (List.mem_cons_of_mem x ha))

/-- C7 (corrected): in the activity listing, `archived` is the count of
activities with the archived flag and `active` is total minus archived; and
provided no (`"Ungrouped"`-defaulted) group name collides with a member of
`Object.prototype`, the reduce completes and the grouping is an
order-preserving partition: the bucket at key `k` is exactly the upstream
subsequence of activities whose defaulted group equals `k` (and is absent
when no activity has that group), every activity lands in exactly one bucket
(the buckets joined are a permutation of the input), and an absent group is
bucketed under the literal `"Ungrouped"`. Without that proviso the partition
fails: a group named e.g. `toString` or `__proto__` makes
`acc[groupName].push` throw a `TypeError` and no listing is produced. -/
theorem activities_listing_spec (acts : List Activity)
    (hsafe : ∀ a ∈ acts, OBJECT_PROTOTYPE_MEMBERS.contains (jsGroup a.group) = false) :
    groupedActivitiesJS acts = Except.ok (groupedActivities acts)
    ∧ archivedCount acts = acts.countP (fun a => a.archived)
    ∧ activeCount acts = acts.length - acts.countP (fun a => a.archived)
    ∧ (∀ k, List.lookup k (groupedActivities acts) =
        if acts.any (fun a => jsGroup a.group == k) then
          some (acts.filter (fun a => jsGroup a.group == k))
        else none)
    ∧ List.Perm ((groupedActivities acts).map Prod.snd).flatten acts
    ∧ jsGroup none = "Ungrouped" := by
  refine ⟨foldGroupsJS_safe acts [] hsafe, ?_, ?_, ?_, ?_, rfl⟩
  · rw [archivedCount, List.countP_eq_length_filter]
  · rw [activeCount, archivedCount, List.countP_eq_length_filter]
  · intro k
    rw [groupedActivities, lookup_groups_fold acts [] k]
    simp [List.lookup]
  · have h := join_groups_fold acts []
    rw [groupedActivities]
    simpa using h

/-- C7 witness: a two-activity list, one grouped `Work`, one with no group. -/
theorem activities_listing_witness :
    (∀ a ∈ ([⟨"A", some "Work", false⟩, ⟨"B", none, true⟩] : List Activity),
      OBJECT_PROTOTYPE_MEMBERS.contains (jsGroup a.group) = false)
    ∧ (groupedActivitiesJS [⟨"A", some "Work", false⟩, ⟨"B", none, true⟩]
        = Except.ok (groupedActivities [⟨"A", some "Work", false⟩, ⟨"B", none, true⟩])
      ∧ archivedCount [⟨"A", some "Work", false⟩, ⟨"B", none, true⟩]
          = ([⟨"A", some "Work", false⟩, ⟨"B", none, true⟩] : List Activity).countP
              (fun a => a.archived)
      ∧ activeCount [⟨"A", some "Work", false⟩, ⟨"B", none, true⟩]
          = ([⟨"A", some "Work", false⟩, ⟨"B", none, true⟩] : List Activity).length
            - ([⟨"A", some "Work", false⟩, ⟨"B", none, true⟩] : List Activity).countP
                (fun a => a.archived)
      ∧ (∀ k, List.lookup k
            (groupedActivities [⟨"A", some "Work", false⟩, ⟨"B", none, true⟩]) =
          if ([⟨"A", some "Work", false⟩, ⟨"B", none, true⟩] : List Activity).any
              (fun a => jsGroup a.group == k) then
            some (([⟨"A", some "Work", false⟩, ⟨"B", none, true⟩] : List Activity).filter
              (fun a => jsGroup a.group == k))
          else none)
      ∧ List.Perm ((groupedActivities
          [⟨"A", some "Work", false⟩, ⟨"B", none, true⟩]).map Prod.snd).flatten
          [⟨"A", some "Work", false⟩, ⟨"B", none, true⟩]
      ∧ jsGroup none = "Ungrouped") :=
  ⟨by decide, activities_listing_spec _ (by decide)⟩

/-- C7 counterexample: one activity whose group is `toString` (and one whose
group is `__proto__`): the plain-object accumulator inherits these names from
`Object.prototype`, so the init guard is skipped and the push throws — the
grouping does not even complete, hence is not a partition of the input. -/
theorem activities_grouping_proto_counterexample :
    groupedActivitiesJS [⟨"A", some "toString", false⟩]
      = Except.error "TypeError: acc[groupName].push is not a function"
    ∧ groupedActivitiesJS [⟨"B", some "__proto__", true⟩]
      = Except.error "TypeError: acc[groupName].push is not a function" := by
  refine ⟨rfl, rfl⟩

/-! ## Timesheet row formatting (`daily-tools.ts` lines 212–217) -/

/-- One activity row inside a `DailyTimesheetDay`. -/
structure TimesheetActivity where
  activity : String
  group : Option String
  duration : Nat
  deriving Repr, DecidableEq

structure FormattedTimesheetActivity where
  activity : String
  group : String
  duration : String
  durationSeconds : Nat
  deriving Repr, DecidableEq

/-- The per-activity formatting of `getDailyTimesheet`, lines 212–217. -/
def formatTimesheetActivity (a : TimesheetActivity) : FormattedTimesheetActivity :=
  { activity := a.activity
    group := jsGroup a.group
    duration := formatDuration a.duration
    durationSeconds := a.duration }

theorem addToGroups_keys_congr (a b : Activity) (hg : jsGroup a.group = jsGroup b.group) :
    ∀ acc, (addToGroups acc a).map Prod.fst = (addToGroups acc b).map Prod.fst := by
  intro acc
  induction acc with
  | nil => simp [addToGroups, hg]
  | cons p rest ih =>
    obtain ⟨k', l'⟩ := p
    simp only [addToGroups, hg]
    by_cases h : k' = jsGroup b.group
    · rw [if_pos (by simp [h]), if_pos (by simp [h])]
      simp
    · rw [if_neg (by simp [h]), if_neg (by simp [h])]
      simp [ih]

/-- C10 (amended): an empty-string group takes the `"Ungrouped"` label exactly
like an absent group in every path; in the summary and timesheet formatting
the resulting rows are fully indistinguishable from a literal `"Ungrouped"`
group; in the activity listing the bucket-key sequence is the same for all
three, though the raw activity objects pushed into the bucket keep their
original `group` field. -/
theorem empty_group_spec :
    jsGroup (some "") = "Ungrouped"
    ∧ jsGroup none = "Ungrouped"
    ∧ jsGroup (some "Ungrouped") = "Ungrouped"
    ∧ (∀ T name dur, formatSummaryEntry T ⟨name, some "", dur⟩ =
        formatSummaryEntry T ⟨name, none, dur⟩)
    ∧ (∀ T name dur, formatSummaryEntry T ⟨name, some "", dur⟩ =
        formatSummaryEntry T ⟨name, some "Ungrouped", dur⟩)
    ∧ (∀ name dur, formatTimesheetActivity ⟨name, some "", dur⟩ =
        formatTimesheetActivity ⟨name, none, dur⟩)
    ∧ (∀ name dur, formatTimesheetActivity ⟨name, some "", dur⟩ =
        formatTimesheetActivity ⟨name, some "Ungrouped", dur⟩)
    ∧ (∀ acc name arch, (addToGroups acc ⟨name, some "", arch⟩).map Prod.fst =
        (addToGroups acc ⟨name, none, arch⟩).map Prod.fst)
    ∧ (∀ acc name arch, (addToGroups acc ⟨name, some "", arch⟩).map Prod.fst =
        (addToGroups acc ⟨name, some "Ungrouped", arch⟩).map Prod.fst) := by
  have h1 : jsGroup (some "") = "Ungrouped" := by decide
  have h2 : jsGroup (some "Ungrouped") = "Ungrouped" := by decide
  refine ⟨h1, rfl, h2, ?_, ?_, ?_, ?_, ?_, ?_⟩
  · intro T name dur
    unfold formatSummaryEntry
    rw [show jsGroup (some "") = jsGroup none from h1]
  · intro T name dur
    unfold formatSummaryEntry
    rw [show jsGroup (some "") = jsGroup (some "Ungrouped") from h1.trans h2.symm]
  · intro name dur
    unfold formatTimesheetActivity
    rw [show jsGroup (some "") = jsGroup none from h1]
  · intro name dur
    unfold formatTimesheetActivity
    rw [show jsGroup (some "") = jsGroup (some "Ungrouped") from h1.trans h2.symm]
  · intro acc name arch
    exact addToGroups_keys_congr ⟨name, some "", arch⟩ ⟨name, none, arch⟩ h1 acc
  · intro acc name arch
    exact addToGroups_keys_congr ⟨name, some "", arch⟩ ⟨name, some "Ungrouped", arch⟩
      (h1.trans h2.symm) acc

/-- C10 counterexample to "indistinguishable in the output" for the activity
listing: same bucket label, but the embedded raw activities still differ. -/
theorem empty_group_counterexample :
    (groupedActivities [⟨"A", some "", false⟩]).map Prod.fst = ["Ungrouped"]
    ∧ (groupedActivities [⟨"A", some "Ungrouped", false⟩]).map Prod.fst = ["Ungrouped"]
    ∧ groupedActivities [⟨"A", some "", false⟩] ≠
        groupedActivities [⟨"A", some "Ungrouped", false⟩] :=
  ⟨by decide, by decide, by decide⟩

/-! ## Tool handlers: validation and configuration before network
(`daily-tools.ts` lines 22–29, 124–135, 184–200) -/

/-- The worker environment: the `DAILY_API_KEY` binding (`undefined` or a
string). -/
structure Env where
  DAILY_API_KEY : Option String
  deriving Repr, DecidableEq

/-- The truthiness test `!(env as any).DAILY_API_KEY` in `getDailyClient`
(lines 22–29): an absent binding and the empty string are both falsy, and
falsy means `getDailyClient` throws
`DAILY_API_KEY environment variable is required`. -/
def hasApiKey (env : Env) : Bool :=
  match env.DAILY_API_KEY with
  | none => false
  | some s => !(s == "")

/-- The envelope a tool handler returns: `createErrorResponse` with its
message and optional `{statusCode}` detail, or `createSuccessResponse` with
its message and structured payload. Every handler body is wrapped in
`try`/`catch`, so a handler always returns one of these — nothing escapes as
an unhandled fault. -/
inductive ToolOutcome (P : Type) where
  | errorEnvelope (message : String) (statusCode : Option Nat)
  | successEnvelope (message : String) (payload : P)
  deriving Repr

/-- `getDailySummary` handler (lines 124–175), with the single outbound
`client.getSummary` call abstracted as the `upstream` response it would
return; the second component counts outbound network calls. -/
def getDailySummaryTool (env : Env) (todayISO : String)
    (upstream : DailyApiResponse (List SummaryEntry)) (start end_ : String) :
    ToolOutcome (List FormattedSummaryEntry) × Nat :=
  if isValidISODate start = false then
    (.errorEnvelope ("Invalid start date format. Use YYYY-MM-DD format. Example: " ++ todayISO)
      none, 0)
  else if isValidISODate end_ = false then
    (.errorEnvelope ("Invalid end date format. Use YYYY-MM-DD format. Example: " ++ todayISO)
      none, 0)
  else if hasApiKey env = false then
    (.errorEnvelope "Error retrieving summary: DAILY_API_KEY environment variable is required"
      none, 0)
  else if upstream.success = false then
    (.errorEnvelope ("Failed to retrieve summary: " ++ upstream.error.getD "undefined")
      upstream.statusCode, 1)
  else
    (.successEnvelope ("Time summary from " ++ start ++ " to " ++ end_ ++ " (" ++
        natDecStr (formattedSummary (upstream.data.getD [])).length ++ " activities)")
      (formattedSummary (upstream.data.getD [])), 1)

/-- `DailyTimesheetDay`: one calendar day of the upstream timesheet. -/
structure TimesheetDay where
  date : String
  activities : List TimesheetActivity
  deriving Repr, DecidableEq

structure FormattedTimesheetDay where
  date : String
  dayTotal : String
  dayTotalSeconds : Nat
  activitiesCount : Nat
  activities : List FormattedTimesheetActivity
  deriving Repr, DecidableEq

/-- The per-day formatting of `getDailyTimesheet` (lines 208–226). -/
def formatTimesheetDay (day : TimesheetDay) : FormattedTimesheetDay :=
  let dayTotal := day.activities.foldl (fun sum a => sum + a.duration) 0
  { date := day.date
    dayTotal := formatDuration dayTotal
    dayTotalSeconds := dayTotal
    activitiesCount := day.activities.length
    activities := day.activities.map formatTimesheetActivity }

/-- `getDailyTimesheet` handler (lines 182–250), network call abstracted as
for `getDailySummaryTool`. -/
def getDailyTimesheetTool (env : Env) (todayISO : String)
    (upstream : DailyApiResponse (List TimesheetDay)) (start end_ : String) :
    ToolOutcome (List FormattedTimesheetDay) × Nat :=
  if isValidISODate start = false then
    (.errorEnvelope ("Invalid start date format. Use YYYY-MM-DD format. Example: " ++ todayISO)
      none, 0)
  else if isValidISODate end_ = false then
    (.errorEnvelope ("Invalid end date format. Use YYYY-MM-DD format. Example: " ++ todayISO)
      none, 0)
  else if hasApiKey env = false then
    (.errorEnvelope "Error retrieving timesheet: DAILY_API_KEY environment variable is required"
      none, 0)
  else if upstream.success = false then
    (.errorEnvelope ("Failed to retrieve timesheet: " ++ upstream.error.getD "undefined")
      upstream.statusCode, 1)
  else
    (.successEnvelope ("Timesheet from " ++ start ++ " to " ++ end_ ++ " (" ++
        natDecStr (upstream.data.getD []).length ++ " days, " ++
        natDecStr ((upstream.data.getD []).filter (fun day => 0 < day.activities.length)).length
        ++ " with activity)")
      ((upstream.data.getD []).map formatTimesheetDay), 1)

/-- C9: for `getSummary`/`getTimesheet`, a start or end failing ISO validation
yields the field-naming error envelope with the `YYYY-MM-DD` example and zero
outbound calls (start checked first); with valid dates, a missing (or empty)
`DAILY_API_KEY` yields the envelope citing the missing setting, again with
zero outbound calls — and a missing key never allows a network call; all of
these are uniform error envelopes of the handlers, which are total. -/
theorem validation_before_network (env : Env) (today : String)
    (up : DailyApiResponse (List SummaryEntry)) (upT : DailyApiResponse (List TimesheetDay))
    (start end_ : String) :
    (isValidISODate start = false →
      getDailySummaryTool env today up start end_ =
        (.errorEnvelope ("Invalid start date format. Use YYYY-MM-DD format. Example: " ++ today)
          none, 0)
      ∧ getDailyTimesheetTool env today upT start end_ =
        (.errorEnvelope ("Invalid start date format. Use YYYY-MM-DD format. Example: " ++ today)
          none, 0))
    ∧ (isValidISODate start = true → isValidISODate end_ = false →
      getDailySummaryTool env today up start end_ =
        (.errorEnvelope ("Invalid end date format. Use YYYY-MM-DD format. Example: " ++ today)
          none, 0)
      ∧ getDailyTimesheetTool env today upT start end_ =
        (.errorEnvelope ("Invalid end date format. Use YYYY-MM-DD format. Example: " ++ today)
          none, 0))
    ∧ (isValidISODate start = true → isValidISODate end_ = true → hasApiKey env = false →
      getDailySummaryTool env today up start end_ =
        (.errorEnvelope "Error retrieving summary: DAILY_API_KEY environment variable is required"
          none, 0)
      ∧ getDailyTimesheetTool env today upT start end_ =
        (.errorEnvelope
          "Error retrieving timesheet: DAILY_API_KEY environment variable is required"
          none, 0))
    ∧ (hasApiKey env = false → (getDailySummaryTool env today up start end_).2 = 0
        ∧ (getDailyTimesheetTool env today upT start end_).2 = 0) := by
  refine ⟨?_, ?_, ?_, ?_⟩
  · intro h
    constructor <;> simp [getDailySummaryTool, getDailyTimesheetTool, h]
  · intro h1 h2
    constructor <;> simp [getDailySummaryTool, getDailyTimesheetTool, h1, h2]
  · intro h1 h2 h3
    constructor <;> simp [getDailySummaryTool, getDailyTimesheetTool, h1, h2, h3]
  · intro h3
    cases h1 : isValidISODate start
    · constructor <;> simp [getDailySummaryTool, getDailyTimesheetTool, h1]
    · cases h2 : isValidISODate end_
      · constructor <;> simp [getDailySummaryTool, getDailyTimesheetTool, h1, h2]
      · constructor <;> simp [getDailySummaryTool, getDailyTimesheetTool, h1, h2, h3]

theorem validation_before_network_witness :
    (isValidISODate "2023/01/01" = false
      ∧ getDailySummaryTool ⟨none⟩ "2024-06-01"
          ⟨true, some [], none, some 200⟩ "2023/01/01" "2023-01-05" =
        (.errorEnvelope
          "Invalid start date format. Use YYYY-MM-DD format. Example: 2024-06-01" none, 0))
    ∧ (isValidISODate "2023-01-04" = true ∧ isValidISODate "2023-01-05" = true
      ∧ hasApiKey ⟨some ""⟩ = false
      ∧ getDailySummaryTool ⟨some ""⟩ "2024-06-01"
          ⟨true, some [], none, some 200⟩ "2023-01-04" "2023-01-05" =
        (.errorEnvelope
          "Error retrieving summary: DAILY_API_KEY environment variable is required" none, 0)) :=
  ⟨⟨by decide,
    ((validation_before_network ⟨none⟩ "2024-06-01" ⟨true, some [], none, some 200⟩
      ⟨true, some [], none, some 200⟩ "2023/01/01" "2023-01-05").1 (by decide)).1⟩,
   ⟨by decide, by decide, by decide,
    (((validation_before_network ⟨some ""⟩ "2024-06-01" ⟨true, some [], none, some 200⟩
      ⟨true, some [], none, some 200⟩ "2023-01-04" "2023-01-05").2.2.1
        (by decide) (by decide) (by decide)).1)⟩⟩

/-! ## UTC calendar arithmetic behind the quick periods
(`daily-tools.ts` lines 308–348 and `client.ts` lines 200–211) -/

/-- Leap years among `0, …, y−1` (year 0 is leap in the proleptic Gregorian
calendar JS `Date` uses). -/
def leapCount (y : Nat) : Nat := (y + 3) / 4 + (y + 399) / 400 - (y + 99) / 100

/-- Days in all years before `y`. -/
def daysBeforeYear (y : Nat) : Nat := 365 * y + leapCount y

/-- Days in the months of year `y` strictly before month `m`. -/
def daysBeforeMonth (y : Nat) : Nat → Nat
  | 0 => 0
  | 1 => 0
  | m + 1 => daysBeforeMonth y m + daysInMonth y m

/-- Day number of a civil date: days since 0000-01-01 (the JS time value
divided by 86 400 000, shifted by the epoch offset). -/
def dayNumber (c : CivilDate) : Nat :=
  daysBeforeYear c.year + daysBeforeMonth c.year c.month + (c.day - 1)

/-- `Date.prototype.getDay` (0 = Sunday): the day number mod 7, anchored so
that 1970-01-01 (day 719528) is a Thursday (4). -/
def getDay (c : CivilDate) : Nat := (dayNumber c + 6) % 7

/-- One calendar day back — the normalization `setDate(getDate() − 1)`
performs. -/
def prevDay (c : CivilDate) : CivilDate :=
  if 1 < c.day then ⟨c.year, c.month, c.day - 1⟩
  else if 1 < c.month then ⟨c.year, c.month - 1, daysInMonth c.year (c.month - 1)⟩
  else ⟨c.year - 1, 12, 31⟩

/-- `setDate(getDate() − k)`: step back `k` calendar days. -/
def subDays (c : CivilDate) : Nat → CivilDate
  | 0 => c
  | k + 1 => prevDay (subDays c k)

/-- The seven supported period tags of `getDailyQuickSummary`. -/
inductive QuickPeriod where
  | today | yesterday | this_week | last_week | this_month | last_7_days | last_30_days
  deriving Repr, DecidableEq

/-- The `switch (period)` of `getDailyQuickSummary` (lines 313–348), with
`new Date()` the current civil date `now` in UTC: each branch computes the
`(start, end)` pair it passes to `client.getSummary`. -/
def quickRange (now : CivilDate) : QuickPeriod → String × String
  | .today => (isoOfDate now, isoOfDate now)
  | .yesterday => (isoOfDate (subDays now 1), isoOfDate (subDays now 1))
  | .this_week => (isoOfDate (subDays now (getDay now)), isoOfDate now)
  | .last_week =>
    (isoOfDate (subDays (subDays now (getDay now + 1)) 6),
     isoOfDate (subDays now (getDay now + 1)))
  | .this_month => (isoOfDate ⟨now.year, now.month, 1⟩, isoOfDate now)
  | .last_7_days => (isoOfDate (subDays now 7), isoOfDate now)
  | .last_30_days => (isoOfDate (subDays now 30), isoOfDate now)

/-! ## Lemmas: calendar arithmetic -/

theorem daysInMonth_bounds (y m : Nat) (h1 : 1 ≤ m) (h2 : m ≤ 12) :
    28 ≤ daysInMonth y m ∧ daysInMonth y m ≤ 31 := by
  interval_cases m <;> simp only [daysInMonth] <;>
    first
    | (constructor <;> omega)
    | (by_cases h : isLeapYear y <;> simp [h])

theorem daysBeforeMonth_12 (y : Nat) :
    daysBeforeMonth y 12 = 334 + (if isLeapYear y = true then 1 else 0) := by
  by_cases h : isLeapYear y <;>
    simp [daysBeforeMonth, daysInMonth, h]

theorem leapCount_succ (y : Nat) :
    leapCount (y + 1) = leapCount y + (if isLeapYear y = true then 1 else 0) := by
  by_cases h4 : y % 4 = 0 <;> by_cases h100 : y % 100 = 0 <;> by_cases h400 : y % 400 = 0
  all_goals
    first
    | (exfalso; omega)
    | (have hL : isLeapYear y = true := by
        simp [isLeapYear, h4, h100, h400]
       rw [if_pos hL]
       unfold leapCount
       omega)
    | (have hL : isLeapYear y = false := by
        simp [isLeapYear, h4, h100, h400]
       rw [if_neg (by simp [hL])]
       unfold leapCount
       omega)

theorem daysBeforeYear_succ (y : Nat) :
    daysBeforeYear (y + 1) = daysBeforeYear y + 365 + (if isLeapYear y = true then 1 else 0) := by
  unfold daysBeforeYear
  rw [leapCount_succ]
  by_cases h : isLeapYear y <;> simp [h] <;> omega

theorem daysBeforeYear_mono (y1 : Nat) : ∀ y2, y1 ≤ y2 → daysBeforeYear y1 ≤ daysBeforeYear y2 := by
  intro y2
  induction y2 with
  | zero =>
    intro h
    have hz : y1 = 0 := by omega
    rw [hz]
  | succ m ih =>
    intro h
    by_cases hm : y1 ≤ m
    · refine (ih hm).trans ?_
      rw [daysBeforeYear_succ m]
      by_cases hL : isLeapYear m = true
      · rw [if_pos hL]
        omega
      · rw [if_neg hL]
        omega
    · have hz : y1 = m + 1 := by omega
      rw [hz]

theorem prevDay_spec (c : CivilDate) (hc : ValidDate c) (hy : 1 ≤ c.year) :
    ValidDate (prevDay c)
    ∧ dayNumber (prevDay c) + 1 = dayNumber c
    ∧ ((c.month = 1 ∧ c.day = 1 ∧ (prevDay c).year + 1 = c.year) ∨ (prevDay c).year = c.year) := by
  obtain ⟨hm1, hm2, hd1, hd2⟩ := hc
  unfold prevDay
  by_cases h1 : 1 < c.day
  · rw [if_pos h1]
    refine ⟨⟨hm1, hm2, show 1 ≤ c.day - 1 by omega,
      show c.day - 1 ≤ daysInMonth c.year c.month by omega⟩, ?_, Or.inr rfl⟩
    unfold dayNumber
    dsimp only
    omega
  · rw [if_neg h1]
    have hd : c.day = 1 := by omega
    by_cases h2 : 1 < c.month
    · rw [if_pos h2]
      have hb := daysInMonth_bounds c.year (c.month - 1) (by omega) (by omega)
      have hmp : daysBeforeMonth c.year (c.month - 1 + 1) =
          daysBeforeMonth c.year (c.month - 1) + daysInMonth c.year (c.month - 1) := by
        obtain ⟨m', hm'⟩ : ∃ m', c.month - 1 = m' + 1 := ⟨c.month - 2, by omega⟩
        rw [hm']
        rfl
      refine ⟨⟨show 1 ≤ c.month - 1 by omega, show c.month - 1 ≤ 12 by omega,
        show 1 ≤ daysInMonth c.year (c.month - 1) by omega, le_rfl⟩, ?_, Or.inr rfl⟩
      unfold dayNumber
      dsimp only
      have hmm : c.month - 1 + 1 = c.month := by omega
      rw [hmm] at hmp
      omega
    · rw [if_neg h2]
      have hm : c.month = 1 := by omega
      obtain ⟨y', hy'⟩ : ∃ y', c.year = y' + 1 := ⟨c.year - 1, by omega⟩
      have h12 := daysBeforeMonth_12 y'
      have hsucc := daysBeforeYear_succ y'
      refine ⟨⟨show (1 : Nat) ≤ 12 by omega, show (12 : Nat) ≤ 12 by omega,
        show (1 : Nat) ≤ 31 by omega, le_rfl⟩, ?_,
        Or.inl ⟨hm, hd, show c.year - 1 + 1 = c.year by omega⟩⟩
      · unfold dayNumber
        dsimp only
        rw [hm, hd, hy']
        have hyy : y' + 1 - 1 = y' := by omega
        rw [hyy]
        have hb1 : daysBeforeMonth (y' + 1) 1 = 0 := rfl
        rw [hb1]
        by_cases hL : isLeapYear y' = true
        · rw [if_pos hL] at h12 hsucc
          simp only [daysBeforeMonth_12, hL, if_pos]
          omega
        · rw [if_neg hL] at h12 hsucc
          rw [h12]
          omega

theorem subDays_subDays (c : CivilDate) (j : Nat) : ∀ k,
    subDays (subDays c j) k = subDays c (j + k) := by
  intro k
  induction k with
  | zero => rfl
  | succ k ih =>
    show prevDay (subDays (subDays c j) k) = subDays c (j + (k + 1))
    rw [ih]
    rfl

theorem subDays_spec (c : CivilDate) (hc : ValidDate c) (h2 : 2 ≤ c.year) :
    ∀ k, k ≤ 30 →
      ValidDate (subDays c k)
      ∧ dayNumber (subDays c k) + k = dayNumber c
      ∧ 1 ≤ (subDays c k).year
      ∧ (subDays c k).year ≤ c.year := by
  have hbase : 731 ≤ dayNumber c := by
    have hmono := daysBeforeYear_mono 2 c.year h2
    have h731 : daysBeforeYear 2 = 731 := by decide
    unfold dayNumber
    omega
  intro k
  induction k with
  | zero => intro _; exact ⟨hc, rfl, show 1 ≤ c.year by omega, le_rfl⟩
  | succ k ih =>
    intro hk
    obtain ⟨hv, hdn, hy1, hy2⟩ := ih (by omega)
    have hstep := prevDay_spec (subDays c k) hv hy1
    have hdn1 := hstep.2.1
    refine ⟨hstep.1, ?_, ?_, ?_⟩
    · show dayNumber (prevDay (subDays c k)) + (k + 1) = dayNumber c
      omega
    · show 1 ≤ (prevDay (subDays c k)).year
      rcases hstep.2.2 with ⟨hm, hd, hy⟩ | hy
      · -- the step crossed a year boundary: the current date is Jan 1, so
        -- its day number is exactly daysBeforeYear of its year; year 1 would
        -- put it at day 366, far below the ≥ 701 we know it has
        have hz : daysBeforeMonth (subDays c k).year 1 = 0 := rfl
        have hval : dayNumber (subDays c k) = daysBeforeYear (subDays c k).year := by
          unfold dayNumber
          rw [hm, hd]
          omega
        by_cases hone : (subDays c k).year = 1
        · exfalso
          have h366 : daysBeforeYear 1 = 366 := by decide
          rw [hone] at hval
          omega
        · omega
      · omega
    · show (prevDay (subDays c k)).year ≤ c.year
      rcases hstep.2.2 with ⟨_, _, hy⟩ | hy <;> omega

theorem isValidISODate_of_valid (c : CivilDate) (hv : ValidDate c) (h9 : c.year ≤ 9999) :
    isValidISODate (isoOfDate c) = true := by
  obtain ⟨h1, h2, h3, h4⟩ := hv
  have hb := daysInMonth_bounds c.year c.month h1 h2
  have heq := isValidISODate_isoOfDate c.year c.month c.day h9 (by omega) (by omega)
  rw [show (⟨c.year, c.month, c.day⟩ : CivilDate) = c from rfl] at heq
  rw [heq]
  exact decide_eq_true ⟨h1, h2, h3, h4⟩

/-- C2: the quick-period date resolution — `today`/`yesterday` give
start = end = today / today − 1; `this_week` starts at today − weekday
(weekday 0 = Sunday: that start is a Sunday, within 7 days of today, and the
largest Sunday day-number on or before today); `last_week` ends on the
Saturday (weekday 6) immediately before this week's Sunday and starts 6 days
earlier; `this_month` starts on day 1 of the current month and year;
`last_7_days`/`last_30_days` start exactly 7/30 days before today; every
period ends at today where the spec says so, and every emitted string is a
valid `YYYY-MM-DD` UTC calendar date (the weekday anchor is checked on
1970-01-01 = Thursday = 4 and 2024-01-07 = Sunday = 0). The year is required
to be in 100–9999: below 100 the JS `Date(year, month, day)` constructor used
by the `this_month` branch maps the year to 1900+year. -/
theorem quickRange_spec (now : CivilDate) (hv : ValidDate now) (h100 : 100 ≤ now.year)
    (h9 : now.year ≤ 9999) :
    quickRange now .today = (isoOfDate now, isoOfDate now)
    ∧ quickRange now .yesterday = (isoOfDate (subDays now 1), isoOfDate (subDays now 1))
    ∧ dayNumber (subDays now 1) + 1 = dayNumber now
    ∧ quickRange now .this_week = (isoOfDate (subDays now (getDay now)), isoOfDate now)
    ∧ getDay now < 7
    ∧ dayNumber (subDays now (getDay now)) + getDay now = dayNumber now
    ∧ getDay (subDays now (getDay now)) = 0
    ∧ (∀ t, t ≤ dayNumber now → (t + 6) % 7 = 0 →
        t ≤ dayNumber (subDays now (getDay now)))
    ∧ quickRange now .last_week =
        (isoOfDate (subDays (subDays now (getDay now + 1)) 6),
         isoOfDate (subDays now (getDay now + 1)))
    ∧ getDay (subDays now (getDay now + 1)) = 6
    ∧ dayNumber (subDays now (getDay now + 1)) + 1 = dayNumber (subDays now (getDay now))
    ∧ dayNumber (subDays (subDays now (getDay now + 1)) 6) + 6 =
        dayNumber (subDays now (getDay now + 1))
    ∧ quickRange now .this_month = (isoOfDate ⟨now.year, now.month, 1⟩, isoOfDate now)
    ∧ (⟨now.year, now.month, 1⟩ : CivilDate).day = 1
    ∧ dayNumber ⟨now.year, now.month, 1⟩ + (now.day - 1) = dayNumber now
    ∧ quickRange now .last_7_days = (isoOfDate (subDays now 7), isoOfDate now)
    ∧ dayNumber (subDays now 7) + 7 = dayNumber now
    ∧ quickRange now .last_30_days = (isoOfDate (subDays now 30), isoOfDate now)
    ∧ dayNumber (subDays now 30) + 30 = dayNumber now
    ∧ (∀ p, isValidISODate (quickRange now p).1 = true
        ∧ isValidISODate (quickRange now p).2 = true)
    ∧ getDay ⟨1970, 1, 1⟩ = 4 ∧ getDay ⟨2024, 1, 7⟩ = 0 := by
  have hw : getDay now < 7 := Nat.mod_lt _ (by omega)
  have h2 : 2 ≤ now.year := by omega
  have hs := subDays_spec now hv h2
  have v1 := hs 1 (by omega)
  have vW := hs (getDay now) (by omega)
  have vW1 := hs (getDay now + 1) (by omega)
  have vW7 := hs (getDay now + 7) (by omega)
  have v7 := hs 7 (by omega)
  have v30 := hs 30 (by omega)
  have hgd : getDay now = (dayNumber now + 6) % 7 := rfl
  have hsub : subDays (subDays now (getDay now + 1)) 6 = subDays now (getDay now + 7) := by
    rw [subDays_subDays]
  have hM : ValidDate ⟨now.year, now.month, 1⟩ := by
    have hb := daysInMonth_bounds now.year now.month hv.1 hv.2.1
    exact ⟨hv.1, hv.2.1, le_rfl, show (1 : Nat) ≤ daysInMonth now.year now.month by omega⟩
  refine ⟨rfl, rfl, v1.2.1, rfl, hw, vW.2.1, ?_, ?_, rfl, ?_, ?_, ?_, rfl, rfl, ?_, rfl,
    v7.2.1, rfl, v30.2.1, ?_, by decide, by decide⟩
  · show (dayNumber (subDays now (getDay now)) + 6) % 7 = 0
    have h := vW.2.1
    omega
  · intro t ht hmod
    have h := vW.2.1
    omega
  · show (dayNumber (subDays now (getDay now + 1)) + 6) % 7 = 6
    have h := vW1.2.1
    omega
  · have ha := vW1.2.1
    have hb := vW.2.1
    omega
  · rw [hsub]
    have ha := vW7.2.1
    have hb := vW1.2.1
    omega
  · have hd1 : 1 ≤ now.day := hv.2.2.1
    unfold dayNumber
    dsimp only
    omega
  · intro p
    have e1 : isValidISODate (isoOfDate now) = true := isValidISODate_of_valid now hv h9
    have eY : isValidISODate (isoOfDate (subDays now 1)) = true :=
      isValidISODate_of_valid _ v1.1 (by have := v1.2.2.2; omega)
    have eW : isValidISODate (isoOfDate (subDays now (getDay now))) = true :=
      isValidISODate_of_valid _ vW.1 (by have := vW.2.2.2; omega)
    have eW1 : isValidISODate (isoOfDate (subDays now (getDay now + 1))) = true :=
      isValidISODate_of_valid _ vW1.1 (by have := vW1.2.2.2; omega)
    have eW7 : isValidISODate (isoOfDate (subDays (subDays now (getDay now + 1)) 6)) = true := by
      rw [hsub]
      exact isValidISODate_of_valid _ vW7.1 (by have := vW7.2.2.2; omega)
    have eM : isValidISODate (isoOfDate ⟨now.year, now.month, 1⟩) = true :=
      isValidISODate_of_valid _ hM h9
    have e7 : isValidISODate (isoOfDate (subDays now 7)) = true :=
      isValidISODate_of_valid _ v7.1 (by have := v7.2.2.2; omega)
    have e30 : isValidISODate (isoOfDate (subDays now 30)) = true :=
      isValidISODate_of_valid _ v30.1 (by have := v30.2.2.2; omega)
    cases p
    · exact ⟨e1, e1⟩
    · exact ⟨eY, eY⟩
    · exact ⟨eW, e1⟩
    · exact ⟨eW7, eW1⟩
    · exact ⟨eM, e1⟩
    · exact ⟨e7, e1⟩
    · exact ⟨e30, e1⟩

theorem quickRange_spec_witness :
    (ValidDate ⟨2026, 10, 11⟩ ∧ 100 ≤ (⟨2026, 10, 11⟩ : CivilDate).year
      ∧ (⟨2026, 10, 11⟩ : CivilDate).year ≤ 9999)
    ∧ quickRange ⟨2026, 10, 11⟩ .today =
        (isoOfDate ⟨2026, 10, 11⟩, isoOfDate ⟨2026, 10, 11⟩)
    ∧ getDay (subDays ⟨2026, 10, 11⟩ (getDay ⟨2026, 10, 11⟩)) = 0
    ∧ getDay (subDays ⟨2026, 10, 11⟩ (getDay ⟨2026, 10, 11⟩ + 1)) = 6 :=
  ⟨⟨⟨by decide, by decide, by decide, by decide⟩, by decide, by decide⟩,
   (quickRange_spec ⟨2026, 10, 11⟩ ⟨by decide, by decide, by decide, by decide⟩
     (by decide) (by decide)).1,
   (quickRange_spec ⟨2026, 10, 11⟩ ⟨by decide, by decide, by decide, by decide⟩
     (by decide) (by decide)).2.2.2.2.2.2.1,
   (quickRange_spec ⟨2026, 10, 11⟩ ⟨by decide, by decide, by decide, by decide⟩
     (by decide) (by decide)).2.2.2.2.2.2.2.2.2.1⟩

end DailyMcp
